import Mathlib

/-!
# WalletModel: sending coins and unlock contexts

A shallow embedding of `src/qt/walletmodel.cpp`.

* The wallet (`CWallet`, the ledger engine) is a record of the values the
  file reads through its accessors.
* The engine operations whose bodies live outside this file
  (`CBitcoinAddress::IsValid`, `CreateTransaction`, `ThreadSafeAskFee`,
  `CommitTransaction`, `Lock`, `Unlock`, the slot behind `requireUnlock`) and the
  constants `MIN_TXOUT_AMOUNT` and `nTransactionFee` are fields of `Engine`,
  so every theorem holds for every engine.
* Every operation returns the wallet it leaves behind and the list of
  engine calls and signals it made, in order.
* `qint64` values are integers; additions performed by the code are wrapped
  to 64 signed bits with `wrap64`.
-/

namespace WalletModel

/-! ## Machine integers -/

/-- The value of an integer after wrap-around to 64 signed bits (`qint64`). -/
def wrap64 (x : Int) : Int := (x + 2 ^ 63) % 2 ^ 64 - 2 ^ 63

/-- The values a `qint64` can hold. -/
def isInt64 (x : Int) : Prop := -(2 ^ 63) ≤ x ∧ x < 2 ^ 63

instance (x : Int) : Decidable (isInt64 x) := by
  unfold isInt64; infer_instance

/-! ## Data model -/

/-- `WalletModel::StatusCode`, the result tag of `sendCoins`. -/
inductive StatusCode where
  | OK
  | InvalidAmount
  | InvalidAddress
  | AmountExceedsBalance
  | AmountWithFeeExceedsBalance
  | DuplicateAddress
  | TransactionCreationFailed
  | TransactionCommitFailed
  | Aborted
deriving DecidableEq

/-- `WalletModel::SendCoinsReturn`: the constructor used in the source is
`SendCoinsReturn(status, fee = 0, hex = QString())`, which is also the
conversion applied by `return OK;`. -/
structure SendCoinsReturn where
  status : StatusCode
  fee : Int := 0
  hex : String := ""
deriving DecidableEq

/-- `WalletModel::EncryptionStatus`. -/
inductive EncryptionStatus where
  | Unencrypted
  | Locked
  | Unlocked
deriving DecidableEq

/-- `SendCoinsRecipient`: one request of a batch. -/
structure SendCoinsRecipient where
  address : String
  amount : Int
  label : String
deriving DecidableEq

/-- The wallet as this file observes it: each field is the value returned by
the accessor named in its comment. -/
structure CWallet where
  /-- `GetBalance()` -/
  nBalance : Int
  /-- `GetStake()` -/
  nStake : Int
  /-- `GetUnconfirmedBalance()` -/
  nUnconfirmedBalance : Int
  /-- `mapWallet.size()` -/
  nTransactions : Int
  /-- `IsCrypted()` -/
  fCrypted : Bool
  /-- `IsLocked()` -/
  fLocked : Bool
  /-- `fWalletUnlockMintOnly`, read by `getfWalletUnlockMintOnlyState()` -/
  fWalletUnlockMintOnly : Bool
  /-- `getCoinStakeReserve()` -/
  nCoinStakeReserve : Int
  /-- `mapAddressBook`, keyed by the address string -/
  mapAddressBook : List (String × String)
deriving DecidableEq

/-- `CWalletTx`: the outputs it pays and `GetHash().GetHex()`. -/
structure CWalletTx where
  vout : List (String × Int)
  hash : String
deriving DecidableEq

/-- What `CWallet::CreateTransaction` hands back: its return value and the
two out-parameters `wtx` and `nFeeRequired`. -/
structure CreateResult where
  fCreated : Bool
  wtx : CWalletTx
  nFeeRequired : Int

/-- What `CWallet::CommitTransaction` hands back: its return value, the
transaction (passed by reference) and the wallet it leaves. -/
structure CommitResult where
  fCommitted : Bool
  wtx : CWalletTx
  wallet : CWallet

/-- The collaborators of `walletmodel.cpp` whose bodies are outside the file.
`CreateTransaction` only reads the wallet: it selects coins and reserves a
change key, which the local `CReserveKey` gives back unless
`CommitTransaction` keeps it. -/
structure Engine where
  /-- `CBitcoinAddress(address).IsValid()` -/
  IsValid : String → Bool
  /-- the constant `MIN_TXOUT_AMOUNT` -/
  MIN_TXOUT_AMOUNT : Int
  /-- the global `nTransactionFee` -/
  nTransactionFee : Int
  /-- `wallet->CreateTransaction(vecSend, wtx, keyChange, nFeeRequired)` -/
  CreateTransaction : CWallet → List (String × Int) → CreateResult
  /-- `ThreadSafeAskFee(nFeeRequired, ...)`: the answer of the user -/
  ThreadSafeAskFee : Int → Bool
  /-- `wallet->CommitTransaction(wtx, keyChange)` -/
  CommitTransaction : CWallet → CWalletTx → CommitResult
  /-- `wallet->Lock()`: its return value and the wallet it leaves -/
  Lock : CWallet → Bool × CWallet
  /-- `wallet->Unlock(passPhrase)`: its return value and the wallet it leaves -/
  Unlock : CWallet → String → Bool × CWallet
  /-- the slot connected to the signal `requireUnlock()`: the wallet after
  the user has answered the passphrase dialog -/
  requireUnlock : CWallet → CWallet

/-- An engine call or an emitted signal, with the value it returned. -/
inductive Call where
  | CreateTransaction (vecSend : List (String × Int)) (fCreated : Bool)
  | ThreadSafeAskFee (nFeeRequired : Int) (answer : Bool)
  | CommitTransaction (wtx : CWalletTx) (fCommitted : Bool)
  | SetAddressBookName (strAddress strLabel : String)
  | Lock (ok : Bool)
  | Unlock (ok : Bool)
  | setfWalletUnlockMintOnlyState (state : Bool)
  | warnMinting
  | requireUnlock
deriving DecidableEq

/-- Is the call `CreateTransaction`? -/
def Call.isCreateTransaction : Call → Bool
  | .CreateTransaction _ _ => true
  | _ => false

/-- Is the call `CommitTransaction`? -/
def Call.isCommitTransaction : Call → Bool
  | .CommitTransaction _ _ => true
  | _ => false

/-- Is the call the engine's lock operation, `Lock`? -/
def Call.isLock : Call → Bool
  | .Lock _ => true
  | _ => false

/-! ## Accessors -/

/-- `WalletModel::getBalance`. -/
def getBalance (w : CWallet) : Int := w.nBalance

/-- `WalletModel::validateAddress`. -/
def validateAddress (E : Engine) (address : String) : Bool := E.IsValid address

/-- `WalletModel::getEncryptionStatus`. -/
def getEncryptionStatus (w : CWallet) : EncryptionStatus :=
  if !w.fCrypted then .Unencrypted
  else if w.fLocked then .Locked
  else .Unlocked

/-- `WalletModel::getMintUnlockedbool`. -/
def getMintUnlockedbool (w : CWallet) : Bool := w.fWalletUnlockMintOnly

/-- Modelled from the spec: `setMintGuard(bool)`, the wallet method
`setfWalletUnlockMintOnlyState`, whose body is outside the file; it stores
the flag that `getfWalletUnlockMintOnlyState` and `requestUnlock` read. -/
def setfWalletUnlockMintOnlyState (w : CWallet) (state : Bool) : CWallet :=
  { w with fWalletUnlockMintOnly := state }

/-- Modelled from the spec: `setAddressBookLabel(Address, string)`, the wallet
method `SetAddressBookName`, whose body is outside the file; it binds the
address to the label, replacing an earlier binding. -/
def SetAddressBookName (w : CWallet) (strAddress strLabel : String) : CWallet :=
  { w with mapAddressBook :=
      (strAddress, strLabel) :: w.mapAddressBook.filter (fun e => e.1 != strAddress) }

/-! ## sendCoins -/

/-- `QSet<QString>::insert`: a set kept as a list without repetition. -/
def QSet.insert (a : String) (s : List String) : List String :=
  if a ∈ s then s else a :: s

/-- The pre-check loop of `sendCoins` (lines 99-112), started with the
running `total` and `setAddress`: the first failing check ends it. -/
def validateLoop (E : Engine) :
    List SendCoinsRecipient → Int → List String → Except StatusCode (Int × List String)
  | [], total, setAddress => .ok (total, setAddress)
  | rcp :: rest, total, setAddress =>
    if !validateAddress E rcp.address then .error .InvalidAddress
    else
      let setAddress := QSet.insert rcp.address setAddress
      if rcp.amount < E.MIN_TXOUT_AMOUNT then .error .InvalidAmount
      else validateLoop E rest (wrap64 (total + rcp.amount)) setAddress

/-- The result of an operation: what it returns, the wallet it leaves and
the calls it made, first to last. -/
structure Outcome (α : Type) where
  ret : α
  wallet : CWallet
  calls : List Call

/-- One round of the address-book loop of `sendCoins` (lines 167-179). -/
def updateLabel (acc : CWallet × List Call) (rcp : SendCoinsRecipient) : CWallet × List Call :=
  match acc.1.mapAddressBook.lookup rcp.address with
  | some strLabel =>
    if strLabel != rcp.label then
      (SetAddressBookName acc.1 rcp.address rcp.label,
        acc.2 ++ [.SetAddressBookName rcp.address rcp.label])
    else acc
  | none =>
    (SetAddressBookName acc.1 rcp.address rcp.label,
      acc.2 ++ [.SetAddressBookName rcp.address rcp.label])

/-- The address-book loop of `sendCoins` (lines 165-180). -/
def updateAddressBook (w : CWallet) (recipients : List SendCoinsRecipient) :
    CWallet × List Call :=
  recipients.foldl updateLabel (w, [])

/-- Lines 181-185 of `sendCoins`: lock the wallet and, when `Lock()` reports
success, clear the mint-only flag. -/
def lockAfterSend (E : Engine) (w : CWallet) : CWallet × List Call :=
  let lk := E.Lock w
  if lk.1 then
    (setfWalletUnlockMintOnlyState lk.2 false,
      [.Lock true, .setfWalletUnlockMintOnlyState false])
  else (lk.2, [.Lock false])

/-- Lines 129-185 of `sendCoins`: the part after the two funds checks. -/
def sendChecked (E : Engine) (w : CWallet) (recipients : List SendCoinsRecipient)
    (total : Int) : Outcome SendCoinsReturn :=
  let vecSend := recipients.map (fun rcp => (rcp.address, rcp.amount))
  let cr := E.CreateTransaction w vecSend
  let c1 : List Call := [.CreateTransaction vecSend cr.fCreated]
  if !cr.fCreated then
    if wrap64 (total + cr.nFeeRequired) > w.nBalance then
      ⟨{ status := .AmountWithFeeExceedsBalance, fee := cr.nFeeRequired }, w, c1⟩
    else ⟨{ status := .TransactionCreationFailed }, w, c1⟩
  else
    let answer := E.ThreadSafeAskFee cr.nFeeRequired
    let c2 := c1 ++ [.ThreadSafeAskFee cr.nFeeRequired answer]
    if !answer then ⟨{ status := .Aborted }, w, c2⟩
    else
      let cm := E.CommitTransaction w cr.wtx
      let c3 := c2 ++ [.CommitTransaction cr.wtx cm.fCommitted]
      if !cm.fCommitted then ⟨{ status := .TransactionCommitFailed }, cm.wallet, c3⟩
      else
        let hex := cm.wtx.hash
        let ab := updateAddressBook cm.wallet recipients
        let lk := lockAfterSend E ab.1
        ⟨{ status := .OK, fee := 0, hex := hex }, lk.1, c3 ++ ab.2 ++ lk.2⟩

/-- `WalletModel::sendCoins`. -/
def sendCoins (E : Engine) (w : CWallet) (recipients : List SendCoinsRecipient) :
    Outcome SendCoinsReturn :=
  if recipients.isEmpty then ⟨{ status := .OK }, w, []⟩
  else
    match validateLoop E recipients 0 [] with
    | .error status => ⟨{ status := status }, w, []⟩
    | .ok (total, setAddress) =>
      if recipients.length > setAddress.length then
        ⟨{ status := .DuplicateAddress }, w, []⟩
      else if total > getBalance w then
        ⟨{ status := .AmountExceedsBalance }, w, []⟩
      else if wrap64 (total + E.nTransactionFee) > getBalance w then
        ⟨{ status := .AmountWithFeeExceedsBalance, fee := E.nTransactionFee }, w, []⟩
      else sendChecked E w recipients total

/-! ## requestUnlock -/

/-- `WalletModel::UnlockContext`: the two flags of the context. -/
structure UnlockContext where
  valid : Bool
  relock : Bool
deriving DecidableEq

/-- `WalletModel::requestUnlock`. -/
def requestUnlock (E : Engine) (w : CWallet) : Outcome UnlockContext :=
  let was_locked := decide (getEncryptionStatus w = .Locked)
  if !was_locked && w.fWalletUnlockMintOnly then
    ⟨⟨false, false⟩, w, [.warnMinting]⟩
  else
    let after : Outcome Unit :=
      if was_locked then ⟨(), E.requireUnlock w, [.requireUnlock]⟩ else ⟨(), w, []⟩
    let valid := decide (getEncryptionStatus after.wallet ≠ .Locked)
    ⟨⟨valid, was_locked && !after.wallet.fWalletUnlockMintOnly⟩, after.wallet, after.calls⟩

/-! ## UnlockContext -/

/-- `WalletModel::setWalletLocked`. -/
def setWalletLocked (E : Engine) (w : CWallet) (locked : Bool) (passPhrase : String) :
    Outcome Bool :=
  if locked then
    let w1 := setfWalletUnlockMintOnlyState w false
    let lk := E.Lock w1
    ⟨lk.1, lk.2, [.setfWalletUnlockMintOnlyState false, .Lock lk.1]⟩
  else
    let ul := E.Unlock w passPhrase
    ⟨ul.1, ul.2, [.Unlock ul.1]⟩

/-- `WalletModel::UnlockContext::~UnlockContext`: the release of a context;
`setWalletLocked(true)` is called with the default, empty pass phrase. -/
def UnlockContext.destroy (E : Engine) (ctx : UnlockContext) (w : CWallet) : Outcome Unit :=
  if ctx.valid && ctx.relock then
    let r := setWalletLocked E w true ""
    ⟨(), r.wallet, r.calls⟩
  else ⟨(), w, []⟩

/-- `WalletModel::UnlockContext::CopyFrom`, as `this.CopyFrom(rhs)`: the pair
of `this` and `rhs` afterwards. The assignment `*this = rhs` copies the
members. -/
def UnlockContext.CopyFrom (_this rhs : UnlockContext) : UnlockContext × UnlockContext :=
  (rhs, { rhs with relock := false })

/-- The contexts involved in a chain of transfers `d1.CopyFrom(s)`,
`d2.CopyFrom(d1)`, ... after the last transfer, in the order
`s, d1, d2, ...`; the list argument holds the destinations before their
transfer. -/
def transferChain (s : UnlockContext) : List UnlockContext → List UnlockContext
  | [] => [s]
  | d :: ds => (UnlockContext.CopyFrom d s).2 :: transferChain (UnlockContext.CopyFrom d s).1 ds

/-- The release of the given contexts, one after the other. -/
def releaseAll (E : Engine) : List UnlockContext → CWallet → Outcome Unit
  | [], w => ⟨(), w, []⟩
  | ctx :: rest, w =>
    let r := UnlockContext.destroy E ctx w
    let r2 := releaseAll E rest r.wallet
    ⟨(), r2.wallet, r.calls ++ r2.calls⟩

/-- Does the context carry the duty to relock: valid and relock both true? -/
def UnlockContext.relocks (ctx : UnlockContext) : Bool := ctx.valid && ctx.relock

/-! ## update -/

/-- The cached members of `WalletModel`, the snapshot kept by `update()`. -/
structure WalletModelCache where
  cachedBalance : Int
  cachedUnconfirmedBalance : Int
  cachedNumTransactions : Int
  cachedEncryptionStatus : EncryptionStatus
  cachedMintStatus : Bool
  cachedReserveBalance : Int
deriving DecidableEq

/-- The cache as the constructor `WalletModel::WalletModel` sets it. -/
def initialCache : WalletModelCache where
  cachedBalance := 0
  cachedUnconfirmedBalance := 0
  cachedNumTransactions := 0
  cachedEncryptionStatus := .Unencrypted
  cachedMintStatus := false
  cachedReserveBalance := 0

/-- The signals emitted by `update()`. -/
inductive Signal where
  | balanceChanged (balance stake unconfirmedBalance : Int)
  | numTransactionsChanged (count : Int)
  | encryptionStatusChanged (status : EncryptionStatus)
  | mintStatusChanged (status : Bool) (reserveBalance : Int)
deriving DecidableEq

/-- `WalletModel::getStake`. -/
def getStake (w : CWallet) : Int := w.nStake

/-- `WalletModel::getUnconfirmedBalance`. -/
def getUnconfirmedBalance (w : CWallet) : Int := w.nUnconfirmedBalance

/-- `WalletModel::getNumTransactions`. -/
def getNumTransactions (w : CWallet) : Int := w.nTransactions

/-- `WalletModel::getCoinStakeReserveValue`. -/
def getCoinStakeReserveValue (w : CWallet) : Int := w.nCoinStakeReserve

/-- `WalletModel::update`: the cache it leaves and the signals it emits. -/
def update (w : CWallet) (c : WalletModelCache) : WalletModelCache × List Signal :=
  let newBalance := getBalance w
  let newUnconfirmedBalance := getUnconfirmedBalance w
  let newNumTransactions := getNumTransactions w
  let newEncryptionStatus := getEncryptionStatus w
  let newMintStatus := getMintUnlockedbool w
  let newReserveBalance := getCoinStakeReserveValue w
  let s1 : List Signal :=
    if c.cachedBalance != newBalance || c.cachedUnconfirmedBalance != newUnconfirmedBalance then
      [.balanceChanged newBalance (getStake w) newUnconfirmedBalance]
    else []
  let s2 : List Signal :=
    if c.cachedNumTransactions != newNumTransactions then
      [.numTransactionsChanged newNumTransactions]
    else []
  let s3 : List Signal :=
    if c.cachedEncryptionStatus != newEncryptionStatus then
      [.encryptionStatusChanged newEncryptionStatus]
    else []
  let s4 : List Signal :=
    if c.cachedMintStatus != newMintStatus then
      [.mintStatusChanged newMintStatus newReserveBalance]
    else []
  ({ c with
      cachedBalance := newBalance
      cachedUnconfirmedBalance := newUnconfirmedBalance
      cachedNumTransactions := newNumTransactions
      cachedMintStatus := newMintStatus
      cachedReserveBalance := newReserveBalance },
    s1 ++ s2 ++ s3 ++ s4)

/-! ## A sample engine -/

/-- A small engine for concrete runs: five-letter addresses are well formed,
the minimum output is 100, the fee is 10, a transaction can be created when
the outputs and the fee fit in the balance, the user confirms, the commit
debits the wallet, `Lock` succeeds on an encrypted wallet and the user
unlocks when asked. -/
def sampleEngine : Engine where
  IsValid := fun s => s.length == 5
  MIN_TXOUT_AMOUNT := 100
  nTransactionFee := 10
  CreateTransaction := fun w vecSend =>
    { fCreated := decide ((vecSend.map Prod.snd).sum + 10 ≤ w.nBalance)
      wtx := { vout := vecSend, hash := "c0ffee" }
      nFeeRequired := 10 }
  ThreadSafeAskFee := fun _ => true
  CommitTransaction := fun w wtx =>
    { fCommitted := true
      wtx := wtx
      wallet := { w with
        nBalance := w.nBalance - (wtx.vout.map Prod.snd).sum - 10
        nTransactions := w.nTransactions + 1 } }
  Lock := fun w => if w.fCrypted then (true, { w with fLocked := true }) else (false, w)
  Unlock := fun w passPhrase =>
    if w.fCrypted && passPhrase == "secret" then (true, { w with fLocked := false })
    else (false, w)
  requireUnlock := fun w => { w with fLocked := false }

/-- An encrypted, unlocked wallet holding `nBalance`, with the mint-only flag
as given and an empty address book. -/
def sampleWallet (nBalance : Int) (fWalletUnlockMintOnly : Bool) : CWallet where
  nBalance := nBalance
  nStake := 0
  nUnconfirmedBalance := 0
  nTransactions := 0
  fCrypted := true
  fLocked := false
  fWalletUnlockMintOnly := fWalletUnlockMintOnly
  nCoinStakeReserve := 0
  mapAddressBook := []

/-- The sample engine with a user who declines the fee. -/
def decliningEngine : Engine :=
  { sampleEngine with ThreadSafeAskFee := fun _ => false }

/-- An encrypted, locked wallet with the mint-only flag as given. -/
def lockedWallet (fWalletUnlockMintOnly : Bool) : CWallet :=
  { sampleWallet 1000 fWalletUnlockMintOnly with fLocked := true }

/-- The sample engine with a passphrase dialog that unlocks the wallet for
ordinary use, storing `false` in the mint-only flag. -/
def plainUnlockEngine : Engine :=
  { sampleEngine with
    requireUnlock := fun w => setfWalletUnlockMintOnlyState { w with fLocked := false } false }

/-- The sample engine with a user who cancels the passphrase dialog. -/
def cancellingEngine : Engine :=
  { sampleEngine with requireUnlock := fun w => w }

/-- The sample engine with the fee estimate `nTransactionFee` as given and a
`CreateTransaction` that always succeeds, asking for a fee of 10. -/
def lenientEngine (nTransactionFee : Int) : Engine :=
  { sampleEngine with
    nTransactionFee := nTransactionFee
    CreateTransaction := fun _ vecSend =>
      { fCreated := true, wtx := { vout := vecSend, hash := "c0ffee" }, nFeeRequired := 10 } }

/-- The sample wallet with two entries in its address book. -/
def bookWallet : CWallet :=
  { sampleWallet 1000 false with mapAddressBook := [("addrA", "old"), ("addrZ", "zed")] }

/-! ## Vocabulary of the statements -/

/-- A request passes the pre-check of `sendCoins`: its address is well formed
and its amount is at least `MIN_TXOUT_AMOUNT`. -/
def wellFormed (E : Engine) (rcp : SendCoinsRecipient) : Prop :=
  E.IsValid rcp.address = true ∧ E.MIN_TXOUT_AMOUNT ≤ rcp.amount

instance (E : Engine) (rcp : SendCoinsRecipient) : Decidable (wellFormed E rcp) := by
  unfold wellFormed; infer_instance

/-- The destinations of a batch, in order. -/
def destinations (recipients : List SendCoinsRecipient) : List String :=
  recipients.map SendCoinsRecipient.address

/-- The exact sum of the amounts of a batch. -/
def sumAmounts (recipients : List SendCoinsRecipient) : Int :=
  (recipients.map SendCoinsRecipient.amount).sum

/-- The outputs handed to `CreateTransaction` for a batch (lines 133-139). -/
def vecSendOf (recipients : List SendCoinsRecipient) : List (String × Int) :=
  recipients.map (fun rcp => (rcp.address, rcp.amount))

/-- The set `setAddress` after inserting the given addresses one by one. -/
def insertAll : List String → List String → List String
  | [], s => s
  | a :: as, s => insertAll as (QSet.insert a s)

/-- The running `total` after adding the given amounts one by one. -/
def accumulate : List Int → Int → Int
  | [], total => total
  | a :: as, total => accumulate as (wrap64 (total + a))

/-- Is the call `SetAddressBookName`? -/
def Call.isSetAddressBookName : Call → Bool
  | .SetAddressBookName _ _ => true
  | _ => false

/-- The test of line 175 against the address book of `w`: the destination of
the request is absent from it or stored with a different label. -/
def needsLabel (w : CWallet) (rcp : SendCoinsRecipient) : Bool :=
  w.mapAddressBook.lookup rcp.address != some rcp.label

/-- The outcome of `sendCoins` after a successful commit: the address book is
brought up to date and the wallet locked. -/
def committedOutcome (E : Engine) (w : CWallet) (recipients : List SendCoinsRecipient) :
    Outcome SendCoinsReturn :=
  let cr := E.CreateTransaction w (vecSendOf recipients)
  let cm := E.CommitTransaction w cr.wtx
  let ab := updateAddressBook cm.wallet recipients
  ⟨{ status := .OK, fee := 0, hex := cm.wtx.hash }, (lockAfterSend E ab.1).1,
    [.CreateTransaction (vecSendOf recipients) true, .ThreadSafeAskFee cr.nFeeRequired true,
      .CommitTransaction cr.wtx true] ++ ab.2 ++ (lockAfterSend E ab.1).2⟩

/-! ## Lemmas on the building blocks -/

theorem wrap64_of_isInt64 {x : Int} (h : isInt64 x) : wrap64 x = x := by
  unfold wrap64; unfold isInt64 at h; omega

theorem isInt64_wrap64 (x : Int) : isInt64 (wrap64 x) := by
  unfold wrap64 isInt64; omega

theorem wrap64_wrap64_add (a b : Int) : wrap64 (wrap64 a + b) = wrap64 (a + b) := by
  unfold wrap64; omega

theorem accumulate_eq (as : List Int) :
    ∀ total : Int, isInt64 total → accumulate as total = wrap64 (total + as.sum) := by
  induction as with
  | nil => intro total h; simp [accumulate, wrap64_of_isInt64 h]
  | cons a as ih =>
    intro total _
    rw [accumulate, ih _ (isInt64_wrap64 _), wrap64_wrap64_add, List.sum_cons, add_assoc]

theorem length_insertAll (as : List String) : ∀ s : List String,
    (insertAll as s).length ≤ s.length + as.length ∧
    ((insertAll as s).length = s.length + as.length ↔ (as.Nodup ∧ ∀ a ∈ as, a ∉ s)) := by
  induction as with
  | nil => intro s; simp [insertAll]
  | cons a as ih =>
    intro s
    by_cases hm : a ∈ s
    · obtain ⟨h1, -⟩ := ih s
      simp only [insertAll, QSet.insert, if_pos hm, List.length_cons]
      refine ⟨by omega, fun he => by omega, fun h => absurd hm (h.2 a (List.mem_cons_self a as))⟩
    · obtain ⟨h1, h2⟩ := ih (a :: s)
      simp only [insertAll, QSet.insert, if_neg hm, List.length_cons] at h1 h2 ⊢
      refine ⟨by omega, ?_⟩
      rw [show s.length + (as.length + 1) = s.length + 1 + as.length by omega, h2]
      simp only [List.nodup_cons, List.mem_cons]
      constructor
      · rintro ⟨hn, hall⟩
        refine ⟨⟨fun hmem => hall a hmem (Or.inl rfl), hn⟩, ?_⟩
        intro b hb
        rcases hb with rfl | hb
        · exact hm
        · exact fun hbs => hall b hb (Or.inr hbs)
      · rintro ⟨⟨hna, hn⟩, hall⟩
        refine ⟨hn, fun b hb hbs => ?_⟩
        rcases hbs with rfl | hbs
        · exact hna hb
        · exact hall b (Or.inr hb) hbs

/-- The duplicate test of line 114 fires exactly when a destination repeats. -/
theorem size_lt_iff_not_nodup (as : List String) :
    as.length > (insertAll as []).length ↔ ¬ as.Nodup := by
  obtain ⟨h1, h2⟩ := length_insertAll as []
  simp only [List.length_nil, Nat.zero_add, List.not_mem_nil, not_false_eq_true,
    implies_true, and_true] at h1 h2
  rw [← h2]; omega

/-- When every request passes the pre-check, the loop ends with the wrapped
total and the set of all destinations. -/
theorem validateLoop_ok (E : Engine) (recipients : List SendCoinsRecipient) :
    ∀ (total : Int) (setAddress : List String),
      (∀ rcp ∈ recipients, wellFormed E rcp) →
      validateLoop E recipients total setAddress =
        .ok (accumulate (recipients.map SendCoinsRecipient.amount) total,
          insertAll (destinations recipients) setAddress) := by
  induction recipients with
  | nil => intro total setAddress _; rfl
  | cons rcp rest ih =>
    intro total setAddress h
    obtain ⟨hv, ha⟩ := h rcp (List.mem_cons_self _ _)
    have hrest : ∀ r ∈ rest, wellFormed E r := fun r hr => h r (List.mem_cons_of_mem _ hr)
    simp only [validateLoop, validateAddress, hv, Bool.not_true, Bool.false_eq_true, if_false,
      not_lt.mpr ha, ih _ _ hrest, destinations, List.map_cons, accumulate, insertAll]

/-- When some request fails the pre-check, the loop ends with one of the two
validation errors. -/
theorem validateLoop_error (E : Engine) (recipients : List SendCoinsRecipient) :
    ∀ (total : Int) (setAddress : List String),
      (∃ rcp ∈ recipients, ¬ wellFormed E rcp) →
      validateLoop E recipients total setAddress = .error .InvalidAddress ∨
      validateLoop E recipients total setAddress = .error .InvalidAmount := by
  induction recipients with
  | nil => intro total setAddress h; obtain ⟨r, hr, -⟩ := h; cases hr
  | cons rcp rest ih =>
    intro total setAddress h
    by_cases hv : E.IsValid rcp.address = true
    · by_cases ha : rcp.amount < E.MIN_TXOUT_AMOUNT
      · right; simp [validateLoop, validateAddress, hv, ha]
      · have hrest : ∃ r ∈ rest, ¬ wellFormed E r := by
          obtain ⟨r, hr, hnw⟩ := h
          rcases List.mem_cons.mp hr with rfl | hr
          · exact absurd ⟨hv, not_lt.mp ha⟩ hnw
          · exact ⟨r, hr, hnw⟩
        simpa [validateLoop, validateAddress, hv, ha] using ih _ _ hrest
    · left; simp [validateLoop, validateAddress, hv]

/-- A batch with a request that fails the pre-check: `sendCoins` stops in the
loop, with the wallet untouched and no call made. -/
theorem sendCoins_of_invalid (E : Engine) (w : CWallet) (recipients : List SendCoinsRecipient)
    (h : ∃ rcp ∈ recipients, ¬ wellFormed E rcp) :
    sendCoins E w recipients = ⟨{ status := .InvalidAddress }, w, []⟩ ∨
    sendCoins E w recipients = ⟨{ status := .InvalidAmount }, w, []⟩ := by
  have hne : recipients.isEmpty = false := by
    obtain ⟨r, hr, -⟩ := h
    cases recipients with
    | nil => cases hr
    | cons _ _ => rfl
  rcases validateLoop_error E recipients 0 [] h with hl | hl
  · left; simp [sendCoins, hne, hl]
  · right; simp [sendCoins, hne, hl]

/-- A non-empty batch whose requests all pass the pre-check: `sendCoins`
reaches the duplicate test with the wrapped sum as `total`. -/
theorem sendCoins_of_wellFormed (E : Engine) (w : CWallet) (recipients : List SendCoinsRecipient)
    (hne : recipients ≠ []) (h : ∀ rcp ∈ recipients, wellFormed E rcp) :
    sendCoins E w recipients =
      if ¬ (destinations recipients).Nodup then ⟨{ status := .DuplicateAddress }, w, []⟩
      else if wrap64 (sumAmounts recipients) > w.nBalance then
        ⟨{ status := .AmountExceedsBalance }, w, []⟩
      else if wrap64 (wrap64 (sumAmounts recipients) + E.nTransactionFee) > w.nBalance then
        ⟨{ status := .AmountWithFeeExceedsBalance, fee := E.nTransactionFee }, w, []⟩
      else sendChecked E w recipients (wrap64 (sumAmounts recipients)) := by
  have hemp : recipients.isEmpty = false := by
    cases recipients with
    | nil => exact absurd rfl hne
    | cons _ _ => rfl
  have hsize := size_lt_iff_not_nodup (destinations recipients)
  have hlen : (destinations recipients).length = recipients.length := by
    simp [destinations]
  rw [hlen] at hsize
  have hacc := accumulate_eq (recipients.map SendCoinsRecipient.amount) 0 (by unfold isInt64; omega)
  rw [zero_add] at hacc
  simp only [sendCoins, hemp, Bool.false_eq_true, if_false, validateLoop_ok E recipients 0 [] h,
    hacc, getBalance, sumAmounts]
  by_cases hd : (destinations recipients).Nodup
  · have : ¬ (recipients.length > (insertAll (destinations recipients) []).length) :=
      fun hgt => (hsize.mp hgt) hd
    simp only [this, if_false, hd, not_true_eq_false]
  · have : recipients.length > (insertAll (destinations recipients) []).length := hsize.mpr hd
    simp only [this, if_true, hd, not_false_eq_true]

/-- The address-book loop only calls `SetAddressBookName`. -/
theorem updateAddressBook_calls (recipients : List SendCoinsRecipient) :
    ∀ (acc : CWallet × List Call),
      (∀ c ∈ acc.2, ∃ a l, c = Call.SetAddressBookName a l) →
      ∀ c ∈ (recipients.foldl updateLabel acc).2, ∃ a l, c = Call.SetAddressBookName a l := by
  induction recipients with
  | nil => intro acc h; exact h
  | cons rcp rest ih =>
    intro acc h
    rw [List.foldl_cons]
    apply ih
    have hset : ∀ c ∈ acc.2 ++ [Call.SetAddressBookName rcp.address rcp.label],
        ∃ a l, c = Call.SetAddressBookName a l := by
      intro c hc
      rcases List.mem_append.mp hc with hc | hc
      · exact h c hc
      · exact ⟨_, _, List.mem_singleton.mp hc⟩
    unfold updateLabel
    split
    · split
      · exact hset
      · exact h
    · exact hset

/-- The calls of `lockAfterSend` are `Lock` with its result and, after a
successful `Lock`, the clearing of the mint-only flag. -/
theorem lockAfterSend_eq (E : Engine) (w : CWallet) :
    ((E.Lock w).1 = true ∧
      lockAfterSend E w = (setfWalletUnlockMintOnlyState (E.Lock w).2 false,
        [.Lock true, .setfWalletUnlockMintOnlyState false])) ∨
    ((E.Lock w).1 = false ∧ lockAfterSend E w = ((E.Lock w).2, [.Lock false])) := by
  unfold lockAfterSend
  cases h : (E.Lock w).1 <;> simp [h]

/-- `sendChecked` when `CreateTransaction` fails. -/
theorem sendChecked_not_created (E : Engine) (w : CWallet) (recipients : List SendCoinsRecipient)
    (total : Int) (hc : (E.CreateTransaction w (vecSendOf recipients)).fCreated = false) :
    sendChecked E w recipients total =
      if wrap64 (total + (E.CreateTransaction w (vecSendOf recipients)).nFeeRequired) > w.nBalance
      then ⟨{ status := .AmountWithFeeExceedsBalance,
              fee := (E.CreateTransaction w (vecSendOf recipients)).nFeeRequired }, w,
            [.CreateTransaction (vecSendOf recipients) false]⟩
      else ⟨{ status := .TransactionCreationFailed }, w,
            [.CreateTransaction (vecSendOf recipients) false]⟩ := by
  unfold vecSendOf at hc
  simp [sendChecked, vecSendOf, hc]

/-- `sendChecked` when the transaction is created and the fee declined. -/
theorem sendChecked_declined (E : Engine) (w : CWallet) (recipients : List SendCoinsRecipient)
    (total : Int) (hc : (E.CreateTransaction w (vecSendOf recipients)).fCreated = true)
    (ha : E.ThreadSafeAskFee (E.CreateTransaction w (vecSendOf recipients)).nFeeRequired = false) :
    sendChecked E w recipients total =
      ⟨{ status := .Aborted }, w,
        [.CreateTransaction (vecSendOf recipients) true,
          .ThreadSafeAskFee (E.CreateTransaction w (vecSendOf recipients)).nFeeRequired false]⟩ := by
  unfold vecSendOf at hc ha
  simp [sendChecked, vecSendOf, hc, ha]

/-- `sendChecked` when the fee is confirmed and the commit fails. -/
theorem sendChecked_commit_failed (E : Engine) (w : CWallet)
    (recipients : List SendCoinsRecipient) (total : Int)
    (hc : (E.CreateTransaction w (vecSendOf recipients)).fCreated = true)
    (ha : E.ThreadSafeAskFee (E.CreateTransaction w (vecSendOf recipients)).nFeeRequired = true)
    (hm : (E.CommitTransaction w
      (E.CreateTransaction w (vecSendOf recipients)).wtx).fCommitted = false) :
    sendChecked E w recipients total =
      ⟨{ status := .TransactionCommitFailed },
        (E.CommitTransaction w (E.CreateTransaction w (vecSendOf recipients)).wtx).wallet,
        [.CreateTransaction (vecSendOf recipients) true,
          .ThreadSafeAskFee (E.CreateTransaction w (vecSendOf recipients)).nFeeRequired true,
          .CommitTransaction (E.CreateTransaction w (vecSendOf recipients)).wtx false]⟩ := by
  unfold vecSendOf at hc ha hm
  simp [sendChecked, vecSendOf, hc, ha, hm]

/-- `sendChecked` when the commit succeeds. -/
theorem sendChecked_committed (E : Engine) (w : CWallet)
    (recipients : List SendCoinsRecipient) (total : Int)
    (hc : (E.CreateTransaction w (vecSendOf recipients)).fCreated = true)
    (ha : E.ThreadSafeAskFee (E.CreateTransaction w (vecSendOf recipients)).nFeeRequired = true)
    (hm : (E.CommitTransaction w
      (E.CreateTransaction w (vecSendOf recipients)).wtx).fCommitted = true) :
    sendChecked E w recipients total =
      ⟨{ status := .OK, fee := 0,
          hex := (E.CommitTransaction w
            (E.CreateTransaction w (vecSendOf recipients)).wtx).wtx.hash },
        (lockAfterSend E (updateAddressBook (E.CommitTransaction w
          (E.CreateTransaction w (vecSendOf recipients)).wtx).wallet recipients).1).1,
        [.CreateTransaction (vecSendOf recipients) true,
          .ThreadSafeAskFee (E.CreateTransaction w (vecSendOf recipients)).nFeeRequired true,
          .CommitTransaction (E.CreateTransaction w (vecSendOf recipients)).wtx true] ++
        (updateAddressBook (E.CommitTransaction w
          (E.CreateTransaction w (vecSendOf recipients)).wtx).wallet recipients).2 ++
        (lockAfterSend E (updateAddressBook (E.CommitTransaction w
          (E.CreateTransaction w (vecSendOf recipients)).wtx).wallet recipients).1).2⟩ := by
  unfold vecSendOf at hc ha hm
  simp [sendChecked, vecSendOf, hc, ha, hm]

/-- Either `sendCoins` stops before line 129, with the wallet untouched and
no call made, or it is the run of lines 129-185 on the wrapped sum. -/
theorem sendCoins_stops_or_checked (E : Engine) (w : CWallet)
    (recipients : List SendCoinsRecipient) :
    ((sendCoins E w recipients).wallet = w ∧ (sendCoins E w recipients).calls = [] ∧
      ((sendCoins E w recipients).ret.status = .OK → recipients = [])) ∨
    (recipients ≠ [] ∧ (∀ rcp ∈ recipients, wellFormed E rcp) ∧
      (destinations recipients).Nodup ∧
      ¬ wrap64 (sumAmounts recipients) > w.nBalance ∧
      ¬ wrap64 (wrap64 (sumAmounts recipients) + E.nTransactionFee) > w.nBalance ∧
      sendCoins E w recipients = sendChecked E w recipients (wrap64 (sumAmounts recipients))) := by
  by_cases hne : recipients = []
  · subst hne; left; exact ⟨rfl, rfl, fun _ => rfl⟩
  by_cases hwf : ∀ rcp ∈ recipients, wellFormed E rcp
  · rw [sendCoins_of_wellFormed E w recipients hne hwf]
    by_cases hnd : (destinations recipients).Nodup
    · rw [if_neg (not_not.mpr hnd)]
      by_cases h1 : wrap64 (sumAmounts recipients) > w.nBalance
      · rw [if_pos h1]; left; exact ⟨rfl, rfl, fun h => by cases h⟩
      · rw [if_neg h1]
        by_cases h2 : wrap64 (wrap64 (sumAmounts recipients) + E.nTransactionFee) > w.nBalance
        · rw [if_pos h2]; left; exact ⟨rfl, rfl, fun h => by cases h⟩
        · rw [if_neg h2]; right; exact ⟨hne, hwf, hnd, h1, h2, rfl⟩
    · rw [if_pos hnd]; left; exact ⟨rfl, rfl, fun h => by cases h⟩
  · have hex : ∃ rcp ∈ recipients, ¬ wellFormed E rcp := by
      simpa only [not_forall, exists_prop] using hwf
    left
    rcases sendCoins_of_invalid E w recipients hex with h | h <;> rw [h] <;>
      exact ⟨rfl, rfl, fun h => by cases h⟩

/-- A non-empty batch answered with OK went through every check, the
creation, the confirmation and the commit. -/
theorem sendCoins_ok (E : Engine) (w : CWallet) (recipients : List SendCoinsRecipient)
    (hne : recipients ≠ []) (hok : (sendCoins E w recipients).ret.status = .OK) :
    (∀ rcp ∈ recipients, wellFormed E rcp) ∧ (destinations recipients).Nodup ∧
    ¬ wrap64 (sumAmounts recipients) > w.nBalance ∧
    ¬ wrap64 (wrap64 (sumAmounts recipients) + E.nTransactionFee) > w.nBalance ∧
    (E.CreateTransaction w (vecSendOf recipients)).fCreated = true ∧
    E.ThreadSafeAskFee (E.CreateTransaction w (vecSendOf recipients)).nFeeRequired = true ∧
    (E.CommitTransaction w (E.CreateTransaction w (vecSendOf recipients)).wtx).fCommitted = true ∧
    sendCoins E w recipients = committedOutcome E w recipients := by
  rcases sendCoins_stops_or_checked E w recipients with ⟨-, -, h⟩ | ⟨-, hwf, hnd, h1, h2, heq⟩
  · exact absurd (h hok) hne
  · rw [heq] at hok
    cases hc : (E.CreateTransaction w (vecSendOf recipients)).fCreated with
    | false =>
      rw [sendChecked_not_created E w recipients _ hc] at hok
      split at hok <;> cases hok
    | true =>
      cases ha : E.ThreadSafeAskFee (E.CreateTransaction w (vecSendOf recipients)).nFeeRequired with
      | false =>
        rw [sendChecked_declined E w recipients _ hc ha] at hok
        cases hok
      | true =>
        cases hm : (E.CommitTransaction w
            (E.CreateTransaction w (vecSendOf recipients)).wtx).fCommitted with
        | false =>
          rw [sendChecked_commit_failed E w recipients _ hc ha hm] at hok
          cases hok
        | true =>
          refine ⟨hwf, hnd, h1, h2, rfl, rfl, rfl, ?_⟩
          rw [heq, sendChecked_committed E w recipients _ hc ha hm]
          rfl

/-- No call of the committed run is a declined fee question, and `Lock` is
reported successful in it only when it was. -/
theorem committedOutcome_calls (E : Engine) (w : CWallet) (recipients : List SendCoinsRecipient) :
    (∀ n, Call.ThreadSafeAskFee n false ∉ (committedOutcome E w recipients).calls) ∧
    (Call.Lock true ∈ (committedOutcome E w recipients).calls →
      (committedOutcome E w recipients).wallet =
        setfWalletUnlockMintOnlyState (E.Lock (updateAddressBook (E.CommitTransaction w
          (E.CreateTransaction w (vecSendOf recipients)).wtx).wallet recipients).1).2 false ∧
      (E.Lock (updateAddressBook (E.CommitTransaction w
          (E.CreateTransaction w (vecSendOf recipients)).wtx).wallet recipients).1).1 = true) := by
  have hab := updateAddressBook_calls recipients
    ((E.CommitTransaction w (E.CreateTransaction w (vecSendOf recipients)).wtx).wallet, [])
    (fun c hc => by cases hc)
  have hlk := lockAfterSend_eq E (updateAddressBook (E.CommitTransaction w
    (E.CreateTransaction w (vecSendOf recipients)).wtx).wallet recipients).1
  constructor
  · intro n hmem
    simp only [committedOutcome, List.mem_append, List.mem_cons, List.mem_singleton,
      List.not_mem_nil, or_false] at hmem
    rcases hmem with (hmem | hmem) | hmem
    · rcases hmem with h | h | h <;> cases h
    · obtain ⟨a, l, h⟩ := hab _ hmem
      cases h
    · rcases hlk with ⟨-, h⟩ | ⟨-, h⟩ <;> rw [h] at hmem <;> simp at hmem
  · intro hmem
    simp only [committedOutcome, List.mem_append, List.mem_cons, List.mem_singleton,
      List.not_mem_nil, or_false] at hmem
    rcases hlk with ⟨h1, h⟩ | ⟨-, h⟩
    · refine ⟨?_, h1⟩
      simp only [committedOutcome, h]
    · exfalso
      rcases hmem with (hmem | hmem) | hmem
      · rcases hmem with h | h | h <;> cases h
      · obtain ⟨a, l, h⟩ := hab _ hmem
        cases h
      · rw [h] at hmem; simp at hmem

/-! ## sendCoins: validation and funds checks -/

/-- C1, as stated, fails: the batch [("addrA", 500), ("addrA", 0)] names the
destination "addrA" twice, yet `sendCoins` returns InvalidAmount, because the
pre-check loop runs over the whole batch before the duplicate test. -/
theorem C1_counterexample :
    ¬ (destinations [⟨"addrA", 500, ""⟩, ⟨"addrA", 0, ""⟩]).Nodup ∧
    (sendCoins sampleEngine (sampleWallet 1000 false)
      [⟨"addrA", 500, ""⟩, ⟨"addrA", 0, ""⟩]).ret.status = .InvalidAmount ∧
    (sendCoins sampleEngine (sampleWallet 1000 false)
      [⟨"addrA", 500, ""⟩, ⟨"addrA", 0, ""⟩]).ret.status ≠ .DuplicateAddress := by
  decide

/-- C1, amended: for every batch in which two requests have the same
destination, the balance after `sendCoins` equals the balance before it, and
`sendCoins` returns DuplicateAddress when every request of the batch has a
well-formed address and an amount of at least `MIN_TXOUT_AMOUNT`. -/
theorem C1_duplicateAddress (E : Engine) (w : CWallet) (recipients : List SendCoinsRecipient)
    (hdup : ¬ (destinations recipients).Nodup) :
    ((∀ rcp ∈ recipients, wellFormed E rcp) →
      (sendCoins E w recipients).ret.status = .DuplicateAddress) ∧
    getBalance (sendCoins E w recipients).wallet = getBalance w := by
  have hne : recipients ≠ [] := by
    rintro rfl
    exact hdup List.nodup_nil
  by_cases hwf : ∀ rcp ∈ recipients, wellFormed E rcp
  · rw [sendCoins_of_wellFormed E w recipients hne hwf, if_pos hdup]
    exact ⟨fun _ => rfl, rfl⟩
  · refine ⟨fun h => absurd h hwf, ?_⟩
    have hex : ∃ rcp ∈ recipients, ¬ wellFormed E rcp := by
      simpa only [not_forall, exists_prop] using hwf
    rcases sendCoins_of_invalid E w recipients hex with h | h <;> rw [h]

/-- C1, the scenario of the spec: [("addrA", 500), ("addrA", 300)] is answered
with DuplicateAddress and the balance stays 1000. -/
theorem C1_duplicateAddress_witness :
    ¬ (destinations [⟨"addrA", 500, ""⟩, ⟨"addrA", 300, ""⟩]).Nodup ∧
    (∀ rcp ∈ [(⟨"addrA", 500, ""⟩ : SendCoinsRecipient), ⟨"addrA", 300, ""⟩],
      wellFormed sampleEngine rcp) ∧
    (sendCoins sampleEngine (sampleWallet 1000 false)
      [⟨"addrA", 500, ""⟩, ⟨"addrA", 300, ""⟩]).ret.status = .DuplicateAddress ∧
    getBalance (sendCoins sampleEngine (sampleWallet 1000 false)
      [⟨"addrA", 500, ""⟩, ⟨"addrA", 300, ""⟩]).wallet = 1000 :=
  ⟨by decide, by decide,
    (C1_duplicateAddress sampleEngine (sampleWallet 1000 false)
      [⟨"addrA", 500, ""⟩, ⟨"addrA", 300, ""⟩] (by decide)).1 (by decide),
    (C1_duplicateAddress sampleEngine (sampleWallet 1000 false)
      [⟨"addrA", 500, ""⟩, ⟨"addrA", 300, ""⟩] (by decide)).2⟩

/-- C2, as stated, fails. With a balance of 100 the batch
[("addrA", 500), ("addrA", 300)] has total 800 > 100 and is answered with
DuplicateAddress. With a balance of 1000 the batch
[("addrA", 2^62), ("addrB", 2^62)] has total 2^63 > 1000, but the 64-bit
`total` wraps to -2^63, both funds checks pass and `CreateTransaction` is
called. -/
theorem C2_counterexample :
    (sumAmounts [⟨"addrA", 500, ""⟩, ⟨"addrA", 300, ""⟩] > getBalance (sampleWallet 100 false) ∧
      (sendCoins sampleEngine (sampleWallet 100 false)
        [⟨"addrA", 500, ""⟩, ⟨"addrA", 300, ""⟩]).ret.status = .DuplicateAddress) ∧
    (sumAmounts [⟨"addrA", 2 ^ 62, ""⟩, ⟨"addrB", 2 ^ 62, ""⟩] >
        getBalance (sampleWallet 1000 false) ∧
      (sendCoins sampleEngine (sampleWallet 1000 false)
        [⟨"addrA", 2 ^ 62, ""⟩, ⟨"addrB", 2 ^ 62, ""⟩]).ret.status ≠ .AmountExceedsBalance ∧
      (sendCoins sampleEngine (sampleWallet 1000 false)
        [⟨"addrA", 2 ^ 62, ""⟩, ⟨"addrB", 2 ^ 62, ""⟩]).calls =
        [.CreateTransaction [("addrA", 2 ^ 62), ("addrB", 2 ^ 62)] false]) := by
  decide

/-- C2, amended: for every batch whose sum of amounts fits in 64 signed bits
and is greater than the balance, `CreateTransaction` is never called, and
`sendCoins` returns AmountExceedsBalance provided the batch is not empty,
every request has a well-formed address and an amount of at least
`MIN_TXOUT_AMOUNT`, and no destination repeats. -/
theorem C2_amountExceedsBalance (E : Engine) (w : CWallet)
    (recipients : List SendCoinsRecipient)
    (hfit : isInt64 (sumAmounts recipients)) (hgt : sumAmounts recipients > getBalance w) :
    (∀ c ∈ (sendCoins E w recipients).calls, c.isCreateTransaction = false) ∧
    (recipients ≠ [] → (∀ rcp ∈ recipients, wellFormed E rcp) →
      (destinations recipients).Nodup →
      (sendCoins E w recipients).ret.status = .AmountExceedsBalance) := by
  have hgt2 : wrap64 (sumAmounts recipients) > w.nBalance := by
    rw [wrap64_of_isInt64 hfit]; exact hgt
  constructor
  · rcases sendCoins_stops_or_checked E w recipients with ⟨-, hc, -⟩ | ⟨-, -, -, h1, -, -⟩
    · rw [hc]
      intro c hmem
      cases hmem
    · exact absurd hgt2 h1
  · intro hne hwf hnd
    rw [sendCoins_of_wellFormed E w recipients hne hwf, if_neg (not_not.mpr hnd), if_pos hgt2]

/-- C2 at a concrete batch: [("addrA", 500), ("addrB", 300)] against a
balance of 100. -/
theorem C2_amountExceedsBalance_witness :
    sumAmounts [⟨"addrA", 500, ""⟩, ⟨"addrB", 300, ""⟩] > getBalance (sampleWallet 100 false) ∧
    (∀ c ∈ (sendCoins sampleEngine (sampleWallet 100 false)
      [⟨"addrA", 500, ""⟩, ⟨"addrB", 300, ""⟩]).calls, c.isCreateTransaction = false) ∧
    (sendCoins sampleEngine (sampleWallet 100 false)
      [⟨"addrA", 500, ""⟩, ⟨"addrB", 300, ""⟩]).ret.status = .AmountExceedsBalance :=
  ⟨by decide,
    (C2_amountExceedsBalance sampleEngine (sampleWallet 100 false)
      [⟨"addrA", 500, ""⟩, ⟨"addrB", 300, ""⟩] (by decide) (by decide)).1,
    (C2_amountExceedsBalance sampleEngine (sampleWallet 100 false)
      [⟨"addrA", 500, ""⟩, ⟨"addrB", 300, ""⟩] (by decide) (by decide)).2
      (by decide) (by decide) (by decide)⟩

/-- C3, as stated, fails three times, each with the fee estimate 10. The empty
batch against a balance of 5 has 0 <= 5 < 0 + 10 and is answered with OK.
The batch [("addrA", 500), ("addrA", 300)] against a balance of 805 has
800 <= 805 < 810 and is answered with DuplicateAddress. The batch
[("addrA", 2^63 - 5)] against a balance of 2^63 - 1 has
total <= balance < total + 10, but the 64-bit sum `total + nTransactionFee`
wraps below zero, the check passes and `CreateTransaction` is called. -/
theorem C3_counterexample :
    (sumAmounts [] ≤ getBalance (sampleWallet 5 false) ∧
      getBalance (sampleWallet 5 false) < sumAmounts [] + sampleEngine.nTransactionFee ∧
      (sendCoins sampleEngine (sampleWallet 5 false) []).ret.status = .OK) ∧
    (sumAmounts [⟨"addrA", 500, ""⟩, ⟨"addrA", 300, ""⟩] ≤ getBalance (sampleWallet 805 false) ∧
      getBalance (sampleWallet 805 false) <
        sumAmounts [⟨"addrA", 500, ""⟩, ⟨"addrA", 300, ""⟩] + sampleEngine.nTransactionFee ∧
      (sendCoins sampleEngine (sampleWallet 805 false)
        [⟨"addrA", 500, ""⟩, ⟨"addrA", 300, ""⟩]).ret.status = .DuplicateAddress) ∧
    (sumAmounts [⟨"addrA", 2 ^ 63 - 5, ""⟩] ≤ getBalance (sampleWallet (2 ^ 63 - 1) false) ∧
      getBalance (sampleWallet (2 ^ 63 - 1) false) <
        sumAmounts [⟨"addrA", 2 ^ 63 - 5, ""⟩] + sampleEngine.nTransactionFee ∧
      (sendCoins sampleEngine (sampleWallet (2 ^ 63 - 1) false)
        [⟨"addrA", 2 ^ 63 - 5, ""⟩]).ret.status ≠ .AmountWithFeeExceedsBalance ∧
      (sendCoins sampleEngine (sampleWallet (2 ^ 63 - 1) false)
        [⟨"addrA", 2 ^ 63 - 5, ""⟩]).calls =
        [.CreateTransaction [("addrA", 2 ^ 63 - 5)] false]) := by
  decide

/-- C3, amended: for every batch whose sum of amounts and that sum plus
`nTransactionFee` fit in 64 signed bits, if
total <= balance < total + nTransactionFee then `CreateTransaction` is never
called, and `sendCoins` returns AmountWithFeeExceedsBalance carrying
`nTransactionFee` as the fee provided the batch is not empty, every request
has a well-formed address and an amount of at least `MIN_TXOUT_AMOUNT`, and
no destination repeats. -/
theorem C3_amountWithFeeExceedsBalance (E : Engine) (w : CWallet)
    (recipients : List SendCoinsRecipient)
    (hfit : isInt64 (sumAmounts recipients))
    (hfitFee : isInt64 (sumAmounts recipients + E.nTransactionFee))
    (hle : sumAmounts recipients ≤ getBalance w)
    (hlt : getBalance w < sumAmounts recipients + E.nTransactionFee) :
    (∀ c ∈ (sendCoins E w recipients).calls, c.isCreateTransaction = false) ∧
    (recipients ≠ [] → (∀ rcp ∈ recipients, wellFormed E rcp) →
      (destinations recipients).Nodup →
      (sendCoins E w recipients).ret.status = .AmountWithFeeExceedsBalance ∧
      (sendCoins E w recipients).ret.fee = E.nTransactionFee) := by
  have h1 : ¬ wrap64 (sumAmounts recipients) > w.nBalance := by
    rw [wrap64_of_isInt64 hfit]; exact not_lt.mpr hle
  have h2 : wrap64 (wrap64 (sumAmounts recipients) + E.nTransactionFee) > w.nBalance := by
    rw [wrap64_of_isInt64 hfit, wrap64_of_isInt64 hfitFee]; exact hlt
  constructor
  · rcases sendCoins_stops_or_checked E w recipients with ⟨-, hc, -⟩ | ⟨-, -, -, -, h3, -⟩
    · rw [hc]
      intro c hmem
      cases hmem
    · exact absurd h2 h3
  · intro hne hwf hnd
    rw [sendCoins_of_wellFormed E w recipients hne hwf, if_neg (not_not.mpr hnd), if_neg h1,
      if_pos h2]
    exact ⟨rfl, rfl⟩

/-- C3 at a concrete batch: [("addrA", 500)] against a balance of 505 and a
fee estimate of 10. -/
theorem C3_amountWithFeeExceedsBalance_witness :
    (∀ c ∈ (sendCoins sampleEngine (sampleWallet 505 false) [⟨"addrA", 500, ""⟩]).calls,
      c.isCreateTransaction = false) ∧
    (sendCoins sampleEngine (sampleWallet 505 false)
      [⟨"addrA", 500, ""⟩]).ret.status = .AmountWithFeeExceedsBalance ∧
    (sendCoins sampleEngine (sampleWallet 505 false) [⟨"addrA", 500, ""⟩]).ret.fee = 10 :=
  ⟨(C3_amountWithFeeExceedsBalance sampleEngine (sampleWallet 505 false) [⟨"addrA", 500, ""⟩]
      (by decide) (by decide) (by decide) (by decide)).1,
    (C3_amountWithFeeExceedsBalance sampleEngine (sampleWallet 505 false) [⟨"addrA", 500, ""⟩]
      (by decide) (by decide) (by decide) (by decide)).2 (by decide) (by decide) (by decide)⟩

/-! ## sendCoins: creation, confirmation, commit -/

/-- C4: for every batch that reaches the fee question (`ThreadSafeAskFee`) and
gets it declined, `sendCoins` returns Aborted, `CommitTransaction` is never
called, and the wallet, hence its balance, is as before the call. -/
theorem C4_declined_aborts (E : Engine) (w : CWallet) (recipients : List SendCoinsRecipient)
    (nFeeRequired : Int)
    (h : Call.ThreadSafeAskFee nFeeRequired false ∈ (sendCoins E w recipients).calls) :
    (sendCoins E w recipients).ret.status = .Aborted ∧
    (∀ c ∈ (sendCoins E w recipients).calls, c.isCommitTransaction = false) ∧
    (sendCoins E w recipients).wallet = w ∧
    getBalance (sendCoins E w recipients).wallet = getBalance w := by
  rcases sendCoins_stops_or_checked E w recipients with ⟨-, hc, -⟩ | ⟨-, -, -, -, -, heq⟩
  · rw [hc] at h; cases h
  · rw [heq] at h ⊢
    cases hc : (E.CreateTransaction w (vecSendOf recipients)).fCreated with
    | false =>
      rw [sendChecked_not_created E w recipients _ hc] at h
      split at h <;> simp at h
    | true =>
      cases ha : E.ThreadSafeAskFee (E.CreateTransaction w (vecSendOf recipients)).nFeeRequired with
      | false =>
        rw [sendChecked_declined E w recipients _ hc ha]
        refine ⟨rfl, ?_, rfl, rfl⟩
        intro c hmem
        simp only [List.mem_cons, List.mem_singleton, List.not_mem_nil, or_false] at hmem
        rcases hmem with rfl | rfl <;> rfl
      | true =>
        cases hm : (E.CommitTransaction w
            (E.CreateTransaction w (vecSendOf recipients)).wtx).fCommitted with
        | false =>
          rw [sendChecked_commit_failed E w recipients _ hc ha hm] at h
          simp at h
        | true =>
          rw [sendChecked_committed E w recipients _ hc ha hm] at h
          exact absurd h ((committedOutcome_calls E w recipients).1 nFeeRequired)

/-- C4 at a concrete run: [("addrA", 500)] against a balance of 1000, with a
user who declines the fee of 10. -/
theorem C4_declined_aborts_witness :
    Call.ThreadSafeAskFee 10 false ∈
      (sendCoins decliningEngine (sampleWallet 1000 false) [⟨"addrA", 500, ""⟩]).calls ∧
    (sendCoins decliningEngine (sampleWallet 1000 false)
      [⟨"addrA", 500, ""⟩]).ret.status = .Aborted ∧
    (∀ c ∈ (sendCoins decliningEngine (sampleWallet 1000 false) [⟨"addrA", 500, ""⟩]).calls,
      c.isCommitTransaction = false) ∧
    (sendCoins decliningEngine (sampleWallet 1000 false) [⟨"addrA", 500, ""⟩]).wallet =
      sampleWallet 1000 false ∧
    getBalance (sendCoins decliningEngine (sampleWallet 1000 false)
      [⟨"addrA", 500, ""⟩]).wallet = getBalance (sampleWallet 1000 false) :=
  ⟨by decide,
    C4_declined_aborts decliningEngine (sampleWallet 1000 false) [⟨"addrA", 500, ""⟩] 10
      (by decide)⟩

/-- C6, as stated, fails twice. With a fee estimate of 10, a balance of 1000
and a `CreateTransaction` that succeeds, the batch
[("addrA", 2^62), ("addrB", 2^62)] is answered with OK although
total + nTransactionFee = 2^63 + 10 is greater than the balance: the 64-bit
`total` wraps to -2^63 and both funds checks pass. With a fee estimate of
-10 and a balance of 495, the batch [("addrA", 500)] meets every condition
of the claim, 500 - 10 <= 495 included, and is answered with
AmountExceedsBalance by the check `total > getBalance()` of line 119, which
the claim does not list. -/
theorem C6_counterexample :
    ((sendCoins (lenientEngine 10) (sampleWallet 1000 false)
        [⟨"addrA", 2 ^ 62, ""⟩, ⟨"addrB", 2 ^ 62, ""⟩]).ret.status = .OK ∧
      ¬ sumAmounts [⟨"addrA", 2 ^ 62, ""⟩, ⟨"addrB", 2 ^ 62, ""⟩] +
          (lenientEngine 10).nTransactionFee ≤ getBalance (sampleWallet 1000 false)) ∧
    ((∀ rcp ∈ [(⟨"addrA", 500, ""⟩ : SendCoinsRecipient)], wellFormed (lenientEngine (-10)) rcp) ∧
      (destinations [⟨"addrA", 500, ""⟩]).Nodup ∧
      sumAmounts [⟨"addrA", 500, ""⟩] + (lenientEngine (-10)).nTransactionFee ≤
        getBalance (sampleWallet 495 false) ∧
      ((lenientEngine (-10)).CreateTransaction (sampleWallet 495 false)
        (vecSendOf [⟨"addrA", 500, ""⟩])).fCreated = true ∧
      (lenientEngine (-10)).ThreadSafeAskFee
        ((lenientEngine (-10)).CreateTransaction (sampleWallet 495 false)
          (vecSendOf [⟨"addrA", 500, ""⟩])).nFeeRequired = true ∧
      ((lenientEngine (-10)).CommitTransaction (sampleWallet 495 false)
        ((lenientEngine (-10)).CreateTransaction (sampleWallet 495 false)
          (vecSendOf [⟨"addrA", 500, ""⟩])).wtx).fCommitted = true ∧
      (sendCoins (lenientEngine (-10)) (sampleWallet 495 false)
        [⟨"addrA", 500, ""⟩]).ret.status = .AmountExceedsBalance) := by
  decide

/-- C6, amended: for every non-empty batch, if `sendCoins` returns OK then
every request has a well-formed address and an amount of at least
`MIN_TXOUT_AMOUNT`, no destination repeats, `CreateTransaction` succeeded,
the fee was confirmed, `CommitTransaction` succeeded and the returned id is
the hash of the committed transaction. When moreover the fee estimate
`nTransactionFee` is not negative and the sum of the amounts and that sum
plus the fee estimate fit in 64 signed bits, `sendCoins` returns OK exactly
when those conditions hold together with
total + nTransactionFee <= balance, and when only the commit fails the
result is TransactionCommitFailed. -/
theorem C6_ok_iff (E : Engine) (w : CWallet) (recipients : List SendCoinsRecipient)
    (hne : recipients ≠ []) :
    ((sendCoins E w recipients).ret.status = .OK →
      (∀ rcp ∈ recipients, wellFormed E rcp) ∧ (destinations recipients).Nodup ∧
      (E.CreateTransaction w (vecSendOf recipients)).fCreated = true ∧
      E.ThreadSafeAskFee (E.CreateTransaction w (vecSendOf recipients)).nFeeRequired = true ∧
      (E.CommitTransaction w
        (E.CreateTransaction w (vecSendOf recipients)).wtx).fCommitted = true ∧
      (sendCoins E w recipients).ret.hex =
        (E.CommitTransaction w (E.CreateTransaction w (vecSendOf recipients)).wtx).wtx.hash ∧
      Call.CommitTransaction (E.CreateTransaction w (vecSendOf recipients)).wtx true ∈
        (sendCoins E w recipients).calls) ∧
    (0 ≤ E.nTransactionFee → isInt64 (sumAmounts recipients) →
      isInt64 (sumAmounts recipients + E.nTransactionFee) →
      ((sendCoins E w recipients).ret.status = .OK ↔
        (∀ rcp ∈ recipients, wellFormed E rcp) ∧ (destinations recipients).Nodup ∧
        sumAmounts recipients + E.nTransactionFee ≤ getBalance w ∧
        (E.CreateTransaction w (vecSendOf recipients)).fCreated = true ∧
        E.ThreadSafeAskFee (E.CreateTransaction w (vecSendOf recipients)).nFeeRequired = true ∧
        (E.CommitTransaction w
          (E.CreateTransaction w (vecSendOf recipients)).wtx).fCommitted = true) ∧
      ((∀ rcp ∈ recipients, wellFormed E rcp) ∧ (destinations recipients).Nodup ∧
        sumAmounts recipients + E.nTransactionFee ≤ getBalance w ∧
        (E.CreateTransaction w (vecSendOf recipients)).fCreated = true ∧
        E.ThreadSafeAskFee (E.CreateTransaction w (vecSendOf recipients)).nFeeRequired = true ∧
        (E.CommitTransaction w
          (E.CreateTransaction w (vecSendOf recipients)).wtx).fCommitted = false →
        (sendCoins E w recipients).ret.status = .TransactionCommitFailed)) := by
  constructor
  · intro hok
    obtain ⟨hwf, hnd, -, -, hc, ha, hm, heq⟩ := sendCoins_ok E w recipients hne hok
    refine ⟨hwf, hnd, hc, ha, hm, ?_⟩
    rw [heq]
    refine ⟨rfl, ?_⟩
    simp [committedOutcome]
  · intro hfee hfit hfitFee
    have hchecked : (∀ rcp ∈ recipients, wellFormed E rcp) → (destinations recipients).Nodup →
        sumAmounts recipients + E.nTransactionFee ≤ getBalance w →
        sendCoins E w recipients =
          sendChecked E w recipients (wrap64 (sumAmounts recipients)) := by
      intro hwf hnd hle
      have h1 : ¬ wrap64 (sumAmounts recipients) > w.nBalance := by
        rw [wrap64_of_isInt64 hfit]
        unfold getBalance at hle
        omega
      have h2 : ¬ wrap64 (wrap64 (sumAmounts recipients) + E.nTransactionFee) > w.nBalance := by
        rw [wrap64_of_isInt64 hfit, wrap64_of_isInt64 hfitFee]
        exact not_lt.mpr hle
      rw [sendCoins_of_wellFormed E w recipients hne hwf, if_neg (not_not.mpr hnd), if_neg h1,
        if_neg h2]
    refine ⟨⟨fun hok => ?_, fun h => ?_⟩, fun h => ?_⟩
    · obtain ⟨hwf, hnd, -, h2, hc, ha, hm, -⟩ := sendCoins_ok E w recipients hne hok
      rw [wrap64_of_isInt64 hfit, wrap64_of_isInt64 hfitFee] at h2
      exact ⟨hwf, hnd, not_lt.mp h2, hc, ha, hm⟩
    · obtain ⟨hwf, hnd, hle, hc, ha, hm⟩ := h
      rw [hchecked hwf hnd hle, sendChecked_committed E w recipients _ hc ha hm]
    · obtain ⟨hwf, hnd, hle, hc, ha, hm⟩ := h
      rw [hchecked hwf hnd hle, sendChecked_commit_failed E w recipients _ hc ha hm]

/-- C6, the scenario of the spec: [("addrA", 500)] against a balance of 1000
with estimated and actual fee 10 is answered with OK and the hash of the
committed transaction. -/
theorem C6_ok_iff_witness :
    (sendCoins sampleEngine (sampleWallet 1000 false) [⟨"addrA", 500, ""⟩]).ret.status = .OK ∧
    (sendCoins sampleEngine (sampleWallet 1000 false) [⟨"addrA", 500, ""⟩]).ret.hex =
      "c0ffee" ∧
    getBalance (sendCoins sampleEngine (sampleWallet 1000 false)
      [⟨"addrA", 500, ""⟩]).wallet = 490 :=
  ⟨((C6_ok_iff sampleEngine (sampleWallet 1000 false) [⟨"addrA", 500, ""⟩]
      (by decide)).2 (by decide) (by decide) (by decide)).1.2 (by decide),
    by decide, by decide⟩

/-! ## sendCoins: all-or-nothing validation and the empty batch -/

/-- C7: for every batch containing a request whose address is not well formed
or whose amount is below `MIN_TXOUT_AMOUNT`, whatever the other requests are,
`sendCoins` returns InvalidAddress or InvalidAmount, calls neither
`CreateTransaction` nor `CommitTransaction`, and leaves the wallet (balance,
lock state, mint-only flag, address book) as it was. -/
theorem C7_invalid_request (E : Engine) (w : CWallet) (recipients : List SendCoinsRecipient)
    (h : ∃ rcp ∈ recipients, E.IsValid rcp.address = false ∨ rcp.amount < E.MIN_TXOUT_AMOUNT) :
    ((sendCoins E w recipients).ret.status = .InvalidAddress ∨
      (sendCoins E w recipients).ret.status = .InvalidAmount) ∧
    (∀ c ∈ (sendCoins E w recipients).calls,
      c.isCreateTransaction = false ∧ c.isCommitTransaction = false) ∧
    (sendCoins E w recipients).wallet = w := by
  have hex : ∃ rcp ∈ recipients, ¬ wellFormed E rcp := by
    obtain ⟨rcp, hmem, hbad⟩ := h
    refine ⟨rcp, hmem, fun hwf => ?_⟩
    rcases hbad with hbad | hbad
    · rw [hwf.1] at hbad; cases hbad
    · exact absurd hwf.2 (not_le.mpr hbad)
  rcases sendCoins_of_invalid E w recipients hex with h | h <;> rw [h]
  · exact ⟨Or.inl rfl, fun c hc => (by cases hc), rfl⟩
  · exact ⟨Or.inr rfl, fun c hc => (by cases hc), rfl⟩

/-- C7 at a concrete batch: two sound requests around one with the amount 5,
against a balance that would cover them all. -/
theorem C7_invalid_request_witness :
    ((sendCoins sampleEngine (sampleWallet 1000 true)
        [⟨"addrA", 500, ""⟩, ⟨"addrB", 5, ""⟩, ⟨"addrC", 300, ""⟩]).ret.status = .InvalidAddress ∨
      (sendCoins sampleEngine (sampleWallet 1000 true)
        [⟨"addrA", 500, ""⟩, ⟨"addrB", 5, ""⟩, ⟨"addrC", 300, ""⟩]).ret.status = .InvalidAmount) ∧
    (∀ c ∈ (sendCoins sampleEngine (sampleWallet 1000 true)
        [⟨"addrA", 500, ""⟩, ⟨"addrB", 5, ""⟩, ⟨"addrC", 300, ""⟩]).calls,
      c.isCreateTransaction = false ∧ c.isCommitTransaction = false) ∧
    (sendCoins sampleEngine (sampleWallet 1000 true)
      [⟨"addrA", 500, ""⟩, ⟨"addrB", 5, ""⟩, ⟨"addrC", 300, ""⟩]).wallet =
      sampleWallet 1000 true :=
  C7_invalid_request sampleEngine (sampleWallet 1000 true)
    [⟨"addrA", 500, ""⟩, ⟨"addrB", 5, ""⟩, ⟨"addrC", 300, ""⟩]
    ⟨⟨"addrB", 5, ""⟩, by decide, Or.inr (by decide)⟩

/-- C8: for the empty batch `sendCoins` returns OK with an empty transaction
id, makes no call at all and leaves the wallet (balance, lock state, mint-only
flag, address book) as it was. -/
theorem C8_empty_batch (E : Engine) (w : CWallet) :
    (sendCoins E w []).ret.status = .OK ∧ (sendCoins E w []).ret.hex = "" ∧
    (sendCoins E w []).calls = [] ∧ (sendCoins E w []).wallet = w :=
  ⟨rfl, rfl, rfl, rfl⟩

/-! ## requestUnlock -/

/-- C9, as stated, fails: on a locked wallet whose mint-only flag is set, with
a passphrase dialog that unlocks the wallet and stores `false` in the flag,
`requestUnlock` returns a context with valid = true and relock = true. Line
316 reads the flag after the unlock attempt, not before the call. -/
theorem C9_counterexample :
    (lockedWallet true).fWalletUnlockMintOnly = true ∧
    getEncryptionStatus (lockedWallet true) = .Locked ∧
    (requestUnlock plainUnlockEngine (lockedWallet true)).ret = ⟨true, true⟩ := by
  decide

/-- C9, amended: for every wallet state in which the mint-only flag is set
before the call, and every outcome of the external unlock attempt after
which the flag is still set when `requestUnlock` returns, `requestUnlock`
does not return a context with valid = true and relock = true. -/
theorem C9_no_relock_while_minting (E : Engine) (w : CWallet)
    (hbefore : w.fWalletUnlockMintOnly = true)
    (hafter : (requestUnlock E w).wallet.fWalletUnlockMintOnly = true) :
    ¬ ((requestUnlock E w).ret.valid = true ∧ (requestUnlock E w).ret.relock = true) := by
  rintro ⟨-, hrelock⟩
  unfold requestUnlock at hafter hrelock
  by_cases hl : getEncryptionStatus w = .Locked
  · simp [hl] at hafter hrelock
    rw [hafter] at hrelock
    cases hrelock
  · simp [hl, hbefore] at hrelock

/-- C9 at a concrete run: a locked wallet with the mint-only flag set, and a
passphrase dialog that unlocks it and leaves the flag alone. -/
theorem C9_no_relock_while_minting_witness :
    (requestUnlock sampleEngine (lockedWallet true)).ret = ⟨true, false⟩ ∧
    ¬ ((requestUnlock sampleEngine (lockedWallet true)).ret.valid = true ∧
      (requestUnlock sampleEngine (lockedWallet true)).ret.relock = true) :=
  ⟨by decide,
    C9_no_relock_while_minting sampleEngine (lockedWallet true) (by decide) (by decide)⟩

/-- C10, as stated, fails twice. On a locked wallet with the mint-only flag
clear and a cancelled passphrase dialog, valid = false and yet relock = true,
where the claim has shouldRelock = wasLocked AND valid AND NOT MintGuard =
false. On an unlocked wallet with the flag set the call is refused with
valid = false, although the encryption state after the call is not Locked. -/
theorem C10_counterexample :
    ((requestUnlock cancellingEngine (lockedWallet false)).ret = ⟨false, true⟩ ∧
      (decide (getEncryptionStatus (lockedWallet false) = .Locked) &&
        (requestUnlock cancellingEngine (lockedWallet false)).ret.valid &&
        !(requestUnlock cancellingEngine (lockedWallet false)).wallet.fWalletUnlockMintOnly) =
        false) ∧
    ((requestUnlock sampleEngine (sampleWallet 1000 true)).ret = ⟨false, false⟩ ∧
      getEncryptionStatus (requestUnlock sampleEngine (sampleWallet 1000 true)).wallet ≠
        .Locked) := by
  decide

/-- C10, amended: for every wallet state and every outcome of the external
unlock attempt, with wasLocked the encryption state read at entry: when the
wallet is not locked at entry and the mint-only flag is set, the context has
valid = false and relock = false; otherwise valid = (encryption state after
the attempt != Locked) and relock = (wasLocked AND NOT mint-only flag after
the attempt), without the conjunct valid; in both cases
valid AND relock = (wasLocked AND valid AND NOT mint-only flag). -/
theorem C10_requestUnlock_context (E : Engine) (w : CWallet) :
    ((getEncryptionStatus w ≠ .Locked ∧ w.fWalletUnlockMintOnly = true) →
      (requestUnlock E w).ret = ⟨false, false⟩) ∧
    (¬ (getEncryptionStatus w ≠ .Locked ∧ w.fWalletUnlockMintOnly = true) →
      (requestUnlock E w).ret.valid =
        decide (getEncryptionStatus (requestUnlock E w).wallet ≠ .Locked) ∧
      (requestUnlock E w).ret.relock =
        (decide (getEncryptionStatus w = .Locked) &&
          !(requestUnlock E w).wallet.fWalletUnlockMintOnly)) ∧
    ((requestUnlock E w).ret.valid && (requestUnlock E w).ret.relock) =
      (decide (getEncryptionStatus w = .Locked) && (requestUnlock E w).ret.valid &&
        !(requestUnlock E w).wallet.fWalletUnlockMintOnly) := by
  unfold requestUnlock
  by_cases hl : getEncryptionStatus w = .Locked
  · simp [hl, Bool.and_comm]
  · cases hm : w.fWalletUnlockMintOnly <;> simp [hl, hm]

/-- C11: for every wallet state that is not Locked (Unencrypted or Unlocked)
with the mint-only flag set, `requestUnlock` emits `warnMinting` and nothing
else, so `requireUnlock` is not emitted, returns a context with valid = false
and relock = false, and leaves the wallet, hence its lock state and the
mint-only flag, as it was. -/
theorem C11_refused_while_minting (E : Engine) (w : CWallet)
    (hnl : getEncryptionStatus w ≠ .Locked) (hm : w.fWalletUnlockMintOnly = true) :
    Call.warnMinting ∈ (requestUnlock E w).calls ∧
    Call.requireUnlock ∉ (requestUnlock E w).calls ∧
    (requestUnlock E w).ret = ⟨false, false⟩ ∧
    (requestUnlock E w).wallet = w ∧
    getEncryptionStatus (requestUnlock E w).wallet = getEncryptionStatus w ∧
    (requestUnlock E w).wallet.fWalletUnlockMintOnly = w.fWalletUnlockMintOnly := by
  unfold requestUnlock
  simp [hnl, hm]

/-- C11, the scenario of the spec: an unlocked wallet with the mint-only flag
set. -/
theorem C11_refused_while_minting_witness :
    getEncryptionStatus (sampleWallet 1000 true) = .Unlocked ∧
    Call.warnMinting ∈ (requestUnlock sampleEngine (sampleWallet 1000 true)).calls ∧
    Call.requireUnlock ∉ (requestUnlock sampleEngine (sampleWallet 1000 true)).calls ∧
    (requestUnlock sampleEngine (sampleWallet 1000 true)).ret = ⟨false, false⟩ ∧
    (requestUnlock sampleEngine (sampleWallet 1000 true)).wallet = sampleWallet 1000 true ∧
    getEncryptionStatus (requestUnlock sampleEngine (sampleWallet 1000 true)).wallet =
      getEncryptionStatus (sampleWallet 1000 true) ∧
    (requestUnlock sampleEngine (sampleWallet 1000 true)).wallet.fWalletUnlockMintOnly =
      (sampleWallet 1000 true).fWalletUnlockMintOnly :=
  ⟨by decide,
    C11_refused_while_minting sampleEngine (sampleWallet 1000 true) (by decide) (by decide)⟩

/-! ## UnlockContext: release and transfer -/

/-- The release of a context with valid and relock both true clears the
mint-only flag and calls `Lock` once. -/
theorem destroy_of_relocks (E : Engine) (ctx : UnlockContext) (w : CWallet)
    (h : ctx.relocks = true) :
    UnlockContext.destroy E ctx w =
      ⟨(), (E.Lock (setfWalletUnlockMintOnlyState w false)).2,
        [.setfWalletUnlockMintOnlyState false,
          .Lock (E.Lock (setfWalletUnlockMintOnlyState w false)).1]⟩ := by
  unfold UnlockContext.relocks at h
  simp [UnlockContext.destroy, setWalletLocked, h]

/-- The release of any other context does nothing. -/
theorem destroy_of_not_relocks (E : Engine) (ctx : UnlockContext) (w : CWallet)
    (h : ctx.relocks = false) :
    UnlockContext.destroy E ctx w = ⟨(), w, []⟩ := by
  unfold UnlockContext.relocks at h
  simp [UnlockContext.destroy, h]

/-- C12: the release of an `UnlockContext` calls the engine's `Lock` if and
only if the context has valid = true and relock = true; when either is false
the release makes no call and leaves the wallet, hence its lock state and
the mint-only flag, as it was. -/
theorem C12_release_locks_iff (E : Engine) (ctx : UnlockContext) (w : CWallet) :
    ((∃ ok, Call.Lock ok ∈ (ctx.destroy E w).calls) ↔
      (ctx.valid = true ∧ ctx.relock = true)) ∧
    (¬ (ctx.valid = true ∧ ctx.relock = true) →
      (ctx.destroy E w).calls = [] ∧ (ctx.destroy E w).wallet = w ∧
      getEncryptionStatus (ctx.destroy E w).wallet = getEncryptionStatus w ∧
      (ctx.destroy E w).wallet.fWalletUnlockMintOnly = w.fWalletUnlockMintOnly) := by
  cases hr : ctx.relocks with
  | true =>
    have hvr : ctx.valid = true ∧ ctx.relock = true := by
      simpa [UnlockContext.relocks] using hr
    rw [destroy_of_relocks E ctx w hr]
    refine ⟨⟨fun _ => hvr, fun _ => ⟨(E.Lock (setfWalletUnlockMintOnlyState w false)).1, ?_⟩⟩,
      fun hn => absurd hvr hn⟩
    simp
  | false =>
    have hvr : ¬ (ctx.valid = true ∧ ctx.relock = true) := by
      simpa [UnlockContext.relocks] using hr
    rw [destroy_of_not_relocks E ctx w hr]
    refine ⟨⟨fun ⟨ok, hmem⟩ => (by cases hmem), fun h => absurd h hvr⟩,
      fun _ => ⟨rfl, rfl, rfl, rfl⟩⟩

/-- C13: for every context `s`, whatever its valid and relock, and every
destination `d`, after `d.CopyFrom(s)` the source `s` has relock = false, and
its release makes no call of `Lock` and leaves the wallet as it was. -/
theorem C13_source_never_relocks (E : Engine) (s d : UnlockContext) (w : CWallet) :
    (d.CopyFrom s).2.relock = false ∧
    (∀ ok, Call.Lock ok ∉ ((d.CopyFrom s).2.destroy E w).calls) ∧
    ((d.CopyFrom s).2.destroy E w).wallet = w := by
  have h : (d.CopyFrom s).2.relocks = false := by
    simp [UnlockContext.CopyFrom, UnlockContext.relocks]
  rw [destroy_of_not_relocks E _ w h]
  exact ⟨rfl, fun ok hmem => (by cases hmem), rfl⟩

/-- The number of `Lock` calls made by releasing a list of contexts is the
number of contexts in it with valid and relock both true. -/
theorem releaseAll_locks (E : Engine) (ctxs : List UnlockContext) :
    ∀ w : CWallet, ((releaseAll E ctxs w).calls.filter Call.isLock).length =
      (ctxs.filter UnlockContext.relocks).length := by
  induction ctxs with
  | nil => intro w; rfl
  | cons ctx rest ih =>
    intro w
    cases hr : ctx.relocks with
    | true =>
      simp only [releaseAll, destroy_of_relocks E ctx w hr, List.filter_append, List.length_append,
        ih, List.filter_cons, hr, if_true, List.length_cons]
      simp [Call.isLock]
      omega
    | false =>
      simp only [releaseAll, destroy_of_not_relocks E ctx w hr, List.nil_append, ih,
        List.filter_cons, hr]
      simp

/-- After a chain of transfers from a context with valid and relock both true,
exactly one of the contexts involved has both. -/
theorem transferChain_relocks (ds : List UnlockContext) :
    ∀ s : UnlockContext, s.relocks = true →
      ((transferChain s ds).filter UnlockContext.relocks).length = 1 := by
  induction ds with
  | nil => intro s hs; simp [transferChain, hs]
  | cons d ds ih =>
    intro s hs
    have h2 : (UnlockContext.CopyFrom d s).2.relocks = false := by
      simp [UnlockContext.CopyFrom, UnlockContext.relocks]
    have h1 : (UnlockContext.CopyFrom d s).1.relocks = true := hs
    simpa only [transferChain, List.filter_cons, h2, Bool.false_eq_true, if_false] using ih _ h1

/-- C14: for every context `s` with valid = true and relock = true and every
chain of transfers `d1.CopyFrom(s)`, `d2.CopyFrom(d1)`, ..., releasing all
the contexts involved, in any order and from any wallet state, calls the
engine's `Lock` exactly once; and after any number of the transfers at most
one of the contexts then involved has valid and relock both true. -/
theorem C14_relock_exactly_once (E : Engine) (s : UnlockContext) (ds : List UnlockContext)
    (hs : s.valid = true ∧ s.relock = true) :
    (∀ (order : List UnlockContext) (w : CWallet), order.Perm (transferChain s ds) →
      ((releaseAll E order w).calls.filter Call.isLock).length = 1) ∧
    (∀ k : Nat, ((transferChain s (ds.take k)).filter UnlockContext.relocks).length ≤ 1) := by
  have hr : s.relocks = true := by simp [UnlockContext.relocks, hs.1, hs.2]
  constructor
  · intro order w hperm
    rw [releaseAll_locks, (hperm.filter _).length_eq, transferChain_relocks ds s hr]
  · intro k
    rw [transferChain_relocks (ds.take k) s hr]

/-- C14 at a concrete chain: `s` is handed to `d1` and on to `d2`, and the
three are released with `d2` first. -/
theorem C14_relock_exactly_once_witness :
    transferChain ⟨true, true⟩ [⟨false, false⟩, ⟨false, false⟩] =
      [⟨true, false⟩, ⟨true, false⟩, ⟨true, true⟩] ∧
    ((releaseAll sampleEngine [⟨true, true⟩, ⟨true, false⟩, ⟨true, false⟩]
      (sampleWallet 1000 false)).calls.filter Call.isLock).length = 1 :=
  ⟨by decide,
    (C14_relock_exactly_once sampleEngine ⟨true, true⟩ [⟨false, false⟩, ⟨false, false⟩]
      ⟨rfl, rfl⟩).1 [⟨true, true⟩, ⟨true, false⟩, ⟨true, false⟩] (sampleWallet 1000 false)
      (by decide)⟩

/-! ## sendCoins: a failed creation -/

/-- What `update()` leaves in the cache: five members hold the values just
read from the wallet, and `cachedEncryptionStatus`, which lines 69-73 do not
assign, holds what it held before. -/
theorem update_cache (w : CWallet) (c : WalletModelCache) :
    (update w c).1.cachedBalance = getBalance w ∧
    (update w c).1.cachedUnconfirmedBalance = getUnconfirmedBalance w ∧
    (update w c).1.cachedNumTransactions = getNumTransactions w ∧
    (update w c).1.cachedMintStatus = getMintUnlockedbool w ∧
    (update w c).1.cachedReserveBalance = getCoinStakeReserveValue w ∧
    (update w c).1.cachedEncryptionStatus = c.cachedEncryptionStatus :=
  ⟨rfl, rfl, rfl, rfl, rfl, rfl⟩

/-- C16 fails on the code: from the cache set by the constructor, whose
`cachedEncryptionStatus` is Unencrypted, and a wallet that is encrypted and
locked, `update()` emits `encryptionStatusChanged(Locked)` and leaves
`cachedEncryptionStatus` at Unencrypted, not at the Locked just read; the
next `update()` on the same wallet emits the signal again. The other five
members are overwritten. -/
theorem C16_update_keeps_old_encryption_status :
    getEncryptionStatus (lockedWallet false) = .Locked ∧
    (update (lockedWallet false) initialCache).1.cachedEncryptionStatus = .Unencrypted ∧
    (update (lockedWallet false) initialCache).1.cachedEncryptionStatus ≠
      getEncryptionStatus (lockedWallet false) ∧
    (update (lockedWallet false) initialCache).1.cachedBalance = 1000 ∧
    (update (lockedWallet false) initialCache).2 =
      [.balanceChanged 1000 0 0, .encryptionStatusChanged .Locked] ∧
    (update (lockedWallet false) (update (lockedWallet false) initialCache).1).2 =
      [.encryptionStatusChanged .Locked] := by
  decide

/-! ## UnlockContext: release while minting -/

/-- C17, as stated, fails: the context returned by `requestUnlock` on a locked
wallet with the mint-only flag clear, once the user has unlocked, has valid
and relock both true; released in a state where the wallet is unlocked and
the mint-only flag is set, it locks the wallet and clears the flag. The
destructor does not read the flag. -/
theorem C17_counterexample :
    (requestUnlock sampleEngine (lockedWallet false)).ret = ⟨true, true⟩ ∧
    (sampleWallet 1000 true).fWalletUnlockMintOnly = true ∧
    getEncryptionStatus (sampleWallet 1000 true) = .Unlocked ∧
    getEncryptionStatus ((requestUnlock sampleEngine (lockedWallet false)).ret.destroy
      sampleEngine (sampleWallet 1000 true)).wallet = .Locked ∧
    ((requestUnlock sampleEngine (lockedWallet false)).ret.destroy
      sampleEngine (sampleWallet 1000 true)).wallet.fWalletUnlockMintOnly = false := by
  decide

/-- C17, amended: for every context returned by `requestUnlock` with the
mint-only flag set at its return, and every wallet state at release time,
in particular one with the flag set, the release makes no call, so it does
not lock the wallet and does not clear the flag. -/
theorem C17_release_while_minting (E : Engine) (w wRelease : CWallet)
    (hmint : (requestUnlock E w).wallet.fWalletUnlockMintOnly = true) :
    ((requestUnlock E w).ret.destroy E wRelease).calls = [] ∧
    ((requestUnlock E w).ret.destroy E wRelease).wallet = wRelease ∧
    getEncryptionStatus ((requestUnlock E w).ret.destroy E wRelease).wallet =
      getEncryptionStatus wRelease ∧
    ((requestUnlock E w).ret.destroy E wRelease).wallet.fWalletUnlockMintOnly =
      wRelease.fWalletUnlockMintOnly := by
  have h : (requestUnlock E w).ret.relocks = false := by
    unfold UnlockContext.relocks
    unfold requestUnlock at hmint ⊢
    by_cases hl : getEncryptionStatus w = .Locked
    · simp [hl] at hmint ⊢
      simp [hmint]
    · cases hm : w.fWalletUnlockMintOnly <;> simp [hl, hm]
  rw [destroy_of_not_relocks E _ wRelease h]
  exact ⟨rfl, rfl, rfl, rfl⟩

/-- C17 at a concrete run: a locked wallet with the mint-only flag set is
unlocked on request, and the context is released while the wallet is
unlocked and minting. -/
theorem C17_release_while_minting_witness :
    (requestUnlock sampleEngine (lockedWallet true)).ret = ⟨true, false⟩ ∧
    ((requestUnlock sampleEngine (lockedWallet true)).ret.destroy sampleEngine
      (sampleWallet 1000 true)).calls = [] ∧
    getEncryptionStatus ((requestUnlock sampleEngine (lockedWallet true)).ret.destroy
      sampleEngine (sampleWallet 1000 true)).wallet = .Unlocked ∧
    ((requestUnlock sampleEngine (lockedWallet true)).ret.destroy sampleEngine
      (sampleWallet 1000 true)).wallet.fWalletUnlockMintOnly = true :=
  ⟨by decide,
    (C17_release_while_minting sampleEngine (lockedWallet true) (sampleWallet 1000 true)
      (by decide)).1,
    by decide, by decide⟩

/-! ## sendCoins: the address book -/

theorem lookup_filter_ne (a b : String) (book : List (String × String)) (h : b ≠ a) :
    (book.filter (fun e => e.1 != a)).lookup b = book.lookup b := by
  induction book with
  | nil => rfl
  | cons e rest ih =>
    obtain ⟨k, v⟩ := e
    by_cases hk : k = a
    · subst hk
      have hbk : (b == k) = false := by simpa using h
      simp [List.filter_cons, List.lookup_cons, hbk, ih]
    · have hka : (k != a) = true := by simpa using hk
      simp only [List.filter_cons, hka, if_true, List.lookup_cons, ih]

/-- After `SetAddressBookName` the address is bound to the label. -/
theorem lookup_SetAddressBookName_same (w : CWallet) (a l : String) :
    (SetAddressBookName w a l).mapAddressBook.lookup a = some l := by
  simp [SetAddressBookName, List.lookup_cons]

/-- `SetAddressBookName` leaves the other addresses as they were. -/
theorem lookup_SetAddressBookName_other (w : CWallet) (a l b : String) (h : b ≠ a) :
    (SetAddressBookName w a l).mapAddressBook.lookup b = w.mapAddressBook.lookup b := by
  have hba : (b == a) = false := by simpa using h
  simp only [SetAddressBookName, List.lookup_cons, hba]
  exact lookup_filter_ne a b _ h

/-- One round of the address-book loop, by the test of line 175. -/
theorem updateLabel_eq (w : CWallet) (cs : List Call) (rcp : SendCoinsRecipient) :
    updateLabel (w, cs) rcp =
      if needsLabel w rcp then
        (SetAddressBookName w rcp.address rcp.label,
          cs ++ [.SetAddressBookName rcp.address rcp.label])
      else (w, cs) := by
  unfold updateLabel needsLabel
  cases h : w.mapAddressBook.lookup rcp.address with
  | none => simp
  | some l =>
    by_cases hl : l = rcp.label
    · simp [hl]
    · simp [hl]

/-- The address-book loop over a batch without repeated destinations: the
calls it makes, the labels it leaves and the entries it does not touch. -/
theorem foldl_updateLabel (recipients : List SendCoinsRecipient) :
    ∀ (w : CWallet) (cs : List Call), (destinations recipients).Nodup →
      (recipients.foldl updateLabel (w, cs)).2 =
        cs ++ (recipients.filter (needsLabel w)).map
          (fun rcp => Call.SetAddressBookName rcp.address rcp.label) ∧
      (∀ rcp ∈ recipients,
        (recipients.foldl updateLabel (w, cs)).1.mapAddressBook.lookup rcp.address =
          some rcp.label) ∧
      (∀ a, a ∉ destinations recipients →
        (recipients.foldl updateLabel (w, cs)).1.mapAddressBook.lookup a =
          w.mapAddressBook.lookup a) := by
  induction recipients with
  | nil => intro w cs _; simp [destinations]
  | cons rcp rest ih =>
    intro w cs hnd
    have hnd2 : rcp.address ∉ destinations rest ∧ (destinations rest).Nodup := by
      simpa [destinations] using hnd
    -- the wallet after the first round
    have hsame : (updateLabel (w, cs) rcp).1.mapAddressBook.lookup rcp.address =
        some rcp.label := by
      rw [updateLabel_eq]
      by_cases hn : needsLabel w rcp = true
      · rw [if_pos hn]; exact lookup_SetAddressBookName_same _ _ _
      · rw [if_neg hn]
        simpa [needsLabel] using hn
    have hother : ∀ b, b ≠ rcp.address →
        (updateLabel (w, cs) rcp).1.mapAddressBook.lookup b = w.mapAddressBook.lookup b := by
      intro b hb
      rw [updateLabel_eq]
      by_cases hn : needsLabel w rcp = true
      · rw [if_pos hn]; exact lookup_SetAddressBookName_other _ _ _ _ hb
      · rw [if_neg hn]
    have hcalls : (updateLabel (w, cs) rcp).2 =
        cs ++ ([rcp].filter (needsLabel w)).map
          (fun rcp => Call.SetAddressBookName rcp.address rcp.label) := by
      rw [updateLabel_eq]
      by_cases hn : needsLabel w rcp = true
      · simp [hn]
      · simp [hn]
    have hfilter : rest.filter (needsLabel (updateLabel (w, cs) rcp).1) =
        rest.filter (needsLabel w) := by
      apply List.filter_congr
      intro r hr
      have hne : r.address ≠ rcp.address := by
        intro he
        apply hnd2.1
        rw [← he]
        exact List.mem_map_of_mem _ hr
      simp only [needsLabel, hother _ hne]
    obtain ⟨ih1, ih2, ih3⟩ := ih (updateLabel (w, cs) rcp).1 (updateLabel (w, cs) rcp).2 hnd2.2
    rw [List.foldl_cons]
    refine ⟨?_, ?_, ?_⟩
    · rw [ih1, hcalls, hfilter, List.append_assoc, ← List.map_append, ← List.filter_append]
      rfl
    · intro r hr
      rcases List.mem_cons.mp hr with rfl | hr
      · rw [ih3 _ hnd2.1, hsame]
      · exact ih2 r hr
    · intro a ha
      have ha2 : a ≠ rcp.address ∧ a ∉ destinations rest := by
        simpa [destinations] using ha
      rw [ih3 a ha2.2, hother a ha2.1]

/-- C18: for every engine whose `CommitTransaction` and `Lock` leave the
address book alone, and every non-empty batch on which `sendCoins` returns
OK: afterwards the address book maps the destination of each request to the
label of that request; the entries of addresses that are not in the batch are
as before the call; and `SetAddressBookName` is called, in batch order, for
exactly the requests whose destination was absent or stored with a different
label. -/
theorem C18_address_book_after_send (E : Engine) (w : CWallet)
    (recipients : List SendCoinsRecipient)
    (hCommit : ∀ w0 wtx, (E.CommitTransaction w0 wtx).wallet.mapAddressBook = w0.mapAddressBook)
    (hLock : ∀ w0, (E.Lock w0).2.mapAddressBook = w0.mapAddressBook)
    (hne : recipients ≠ []) (hok : (sendCoins E w recipients).ret.status = .OK) :
    (∀ rcp ∈ recipients,
      (sendCoins E w recipients).wallet.mapAddressBook.lookup rcp.address = some rcp.label) ∧
    (∀ a, a ∉ destinations recipients →
      (sendCoins E w recipients).wallet.mapAddressBook.lookup a = w.mapAddressBook.lookup a) ∧
    (sendCoins E w recipients).calls.filter Call.isSetAddressBookName =
      (recipients.filter (needsLabel w)).map
        (fun rcp => Call.SetAddressBookName rcp.address rcp.label) := by
  obtain ⟨-, hnd, -, -, -, -, -, heq⟩ := sendCoins_ok E w recipients hne hok
  obtain ⟨h1, h2, h3⟩ := foldl_updateLabel recipients
    (E.CommitTransaction w (E.CreateTransaction w (vecSendOf recipients)).wtx).wallet [] hnd
  have hbook : ∀ x : CWallet, (lockAfterSend E x).1.mapAddressBook = x.mapAddressBook := by
    intro x
    rcases lockAfterSend_eq E x with ⟨-, h⟩ | ⟨-, h⟩ <;> rw [h]
    · exact hLock x
    · exact hLock x
  have hneeds : needsLabel (E.CommitTransaction w
      (E.CreateTransaction w (vecSendOf recipients)).wtx).wallet = needsLabel w := by
    funext rcp
    simp only [needsLabel, hCommit]
  have hlockcalls : ∀ x : CWallet,
      (lockAfterSend E x).2.filter Call.isSetAddressBookName = [] := by
    intro x
    rcases lockAfterSend_eq E x with ⟨-, h⟩ | ⟨-, h⟩ <;> rw [h] <;> rfl
  rw [heq]
  refine ⟨?_, ?_, ?_⟩
  · intro rcp hr
    simp only [committedOutcome, hbook, updateAddressBook]
    exact h2 rcp hr
  · intro a ha
    simp only [committedOutcome, hbook, updateAddressBook]
    rw [h3 a ha, hCommit]
  · simp only [committedOutcome, List.filter_append, hlockcalls, List.append_nil, updateAddressBook,
      h1, hneeds, List.nil_append]
    have hall : ∀ l : List SendCoinsRecipient,
        (l.map (fun rcp => Call.SetAddressBookName rcp.address rcp.label)).filter
          Call.isSetAddressBookName =
        l.map (fun rcp => Call.SetAddressBookName rcp.address rcp.label) := by
      intro l
      apply List.filter_eq_self.mpr
      intro c hc
      obtain ⟨r, -, rfl⟩ := List.mem_map.mp hc
      rfl
    rw [hall]
    rfl

/-- C18 at a concrete run: "addrA" is stored with another label, "addrB" is
new, "addrZ" is not in the batch. -/
theorem C18_address_book_after_send_witness :
    (sendCoins sampleEngine bookWallet
      [⟨"addrA", 500, "alice"⟩, ⟨"addrB", 300, "bob"⟩]).wallet.mapAddressBook =
      [("addrB", "bob"), ("addrA", "alice"), ("addrZ", "zed")] ∧
    (sendCoins sampleEngine bookWallet
      [⟨"addrA", 500, "alice"⟩, ⟨"addrB", 300, "bob"⟩]).calls.filter
        Call.isSetAddressBookName =
      [.SetAddressBookName "addrA" "alice", .SetAddressBookName "addrB" "bob"] :=
  ⟨by decide,
    (C18_address_book_after_send sampleEngine bookWallet
      [⟨"addrA", 500, "alice"⟩, ⟨"addrB", 300, "bob"⟩]
      (fun _ _ => rfl)
      (fun w0 => by
        by_cases hc : w0.fCrypted = true <;> simp [sampleEngine, hc])
      (by decide) (by decide)).2.2⟩

/-! ## sendCoins: the order of the validation errors -/

/-- Lines 129-185 never answer DuplicateAddress. -/
theorem sendChecked_status_ne_duplicate (E : Engine) (w : CWallet)
    (recipients : List SendCoinsRecipient) (total : Int) :
    (sendChecked E w recipients total).ret.status ≠ .DuplicateAddress := by
  cases hc : (E.CreateTransaction w (vecSendOf recipients)).fCreated with
  | false =>
    rw [sendChecked_not_created E w recipients _ hc]
    split <;> simp
  | true =>
    cases ha : E.ThreadSafeAskFee (E.CreateTransaction w (vecSendOf recipients)).nFeeRequired with
    | false => rw [sendChecked_declined E w recipients _ hc ha]; simp
    | true =>
      cases hm : (E.CommitTransaction w
          (E.CreateTransaction w (vecSendOf recipients)).wtx).fCommitted with
      | false => rw [sendChecked_commit_failed E w recipients _ hc ha hm]; simp
      | true => rw [sendChecked_committed E w recipients _ hc ha hm]; simp

/-- The pre-check loop stops at the first request that fails a check, with the
error of the check that fails first within that request. -/
theorem validateLoop_first_failure (E : Engine) (pre : List SendCoinsRecipient)
    (rcp : SendCoinsRecipient) (post : List SendCoinsRecipient) :
    ∀ (total : Int) (setAddress : List String),
      (∀ r ∈ pre, wellFormed E r) → ¬ wellFormed E rcp →
      validateLoop E (pre ++ rcp :: post) total setAddress =
        .error (if E.IsValid rcp.address then .InvalidAmount else .InvalidAddress) := by
  induction pre with
  | nil =>
    intro total setAddress _ hbad
    by_cases hv : E.IsValid rcp.address = true
    · have ha : rcp.amount < E.MIN_TXOUT_AMOUNT := by
        by_contra hge
        exact hbad ⟨hv, not_lt.mp hge⟩
      simp [validateLoop, validateAddress, hv, ha]
    · simp [validateLoop, validateAddress, hv]
  | cons r rest ih =>
    intro total setAddress hpre hbad
    obtain ⟨hv, ha⟩ := hpre r (List.mem_cons_self _ _)
    have hrest : ∀ x ∈ rest, wellFormed E x := fun x hx => hpre x (List.mem_cons_of_mem _ hx)
    rw [List.cons_append]
    simp only [validateLoop, validateAddress, hv, Bool.not_true, Bool.false_eq_true, if_false,
      not_lt.mpr ha]
    exact ih _ _ hrest hbad

/-- C19: for every batch, empty or not, whatever the wallet and its balance:
`sendCoins` returns DuplicateAddress exactly when every request has a
well-formed address and an amount of at least `MIN_TXOUT_AMOUNT` and a
destination string repeats; and when some request fails the pre-check, the
result is that of the first failing request in batch order, InvalidAddress
if its address is not well formed and InvalidAmount otherwise. -/
theorem C19_validation_errors (E : Engine) (w : CWallet) (recipients : List SendCoinsRecipient) :
    ((sendCoins E w recipients).ret.status = .DuplicateAddress ↔
      (∀ rcp ∈ recipients, wellFormed E rcp) ∧ ¬ (destinations recipients).Nodup) ∧
    (∀ (pre : List SendCoinsRecipient) (rcp : SendCoinsRecipient)
        (post : List SendCoinsRecipient),
      recipients = pre ++ rcp :: post → (∀ r ∈ pre, wellFormed E r) → ¬ wellFormed E rcp →
      (sendCoins E w recipients).ret.status =
        if E.IsValid rcp.address then .InvalidAmount else .InvalidAddress) := by
  constructor
  · constructor
    · intro hdup
      by_cases hwf : ∀ rcp ∈ recipients, wellFormed E rcp
      · refine ⟨hwf, fun hnd => ?_⟩
        rcases sendCoins_stops_or_checked E w recipients with ⟨-, -, -⟩ | ⟨hne, -, -, h1, h2, heq⟩
        · by_cases hne : recipients = []
          · subst hne; cases hdup
          · rw [sendCoins_of_wellFormed E w recipients hne hwf, if_neg (not_not.mpr hnd)] at hdup
            split at hdup
            · cases hdup
            · split at hdup
              · cases hdup
              · exact sendChecked_status_ne_duplicate E w recipients _ hdup
        · rw [heq] at hdup
          exact sendChecked_status_ne_duplicate E w recipients _ hdup
      · have hex : ∃ rcp ∈ recipients, ¬ wellFormed E rcp := by
          simpa only [not_forall, exists_prop] using hwf
        rcases sendCoins_of_invalid E w recipients hex with h | h <;> rw [h] at hdup <;>
          cases hdup
    · rintro ⟨hwf, hnd⟩
      have hne : recipients ≠ [] := by
        rintro rfl
        exact hnd List.nodup_nil
      rw [sendCoins_of_wellFormed E w recipients hne hwf, if_pos hnd]
  · intro pre rcp post hsplit hpre hbad
    subst hsplit
    have hemp : (pre ++ rcp :: post).isEmpty = false := by
      cases pre <;> rfl
    simp only [sendCoins, hemp, Bool.false_eq_true, if_false,
      validateLoop_first_failure E pre rcp post 0 [] hpre hbad]

/-! ## sendCoins: the 64-bit total -/

/-- Without wrap-around the two funds checks do their work: when the sum of
the amounts and that sum plus `nTransactionFee` fit in 64 signed bits and
`CreateTransaction` is called, the sum plus the fee is at most the balance. -/
theorem sum_le_balance_of_called (E : Engine) (w : CWallet)
    (recipients : List SendCoinsRecipient)
    (hfit : isInt64 (sumAmounts recipients))
    (hfitFee : isInt64 (sumAmounts recipients + E.nTransactionFee))
    (hcall : ∃ c ∈ (sendCoins E w recipients).calls, c.isCreateTransaction = true) :
    sumAmounts recipients + E.nTransactionFee ≤ getBalance w := by
  rcases sendCoins_stops_or_checked E w recipients with ⟨-, hc, -⟩ | ⟨-, -, -, -, h2, -⟩
  · obtain ⟨c, hmem, -⟩ := hcall
    rw [hc] at hmem
    cases hmem
  · rw [wrap64_of_isInt64 hfit, wrap64_of_isInt64 hfitFee] at h2
    exact not_lt.mp h2

/-- C20 fails on the code: the batch [("addrA", 2^62), ("addrB", 2^62)], two
well-formed requests whose amounts are `qint64` values, against a balance of
1000 and a fee estimate of 10. The 64-bit `total` wraps to -2^63, both funds
checks pass and `CreateTransaction` is called, while the exact sum of the
amounts plus the fee, 2^63 + 10, is greater than the balance. -/
theorem C20_wrapped_total_reaches_CreateTransaction :
    (∀ rcp ∈ [(⟨"addrA", 2 ^ 62, ""⟩ : SendCoinsRecipient), ⟨"addrB", 2 ^ 62, ""⟩],
      wellFormed sampleEngine rcp ∧ isInt64 rcp.amount) ∧
    accumulate [2 ^ 62, 2 ^ 62] 0 = -(2 ^ 63) ∧
    Call.CreateTransaction [("addrA", 2 ^ 62), ("addrB", 2 ^ 62)] false ∈
      (sendCoins sampleEngine (sampleWallet 1000 false)
        [⟨"addrA", 2 ^ 62, ""⟩, ⟨"addrB", 2 ^ 62, ""⟩]).calls ∧
    sumAmounts [⟨"addrA", 2 ^ 62, ""⟩, ⟨"addrB", 2 ^ 62, ""⟩] + sampleEngine.nTransactionFee >
      getBalance (sampleWallet 1000 false) ∧
    (sendCoins sampleEngine (sampleWallet 1000 false)
      [⟨"addrA", 2 ^ 62, ""⟩, ⟨"addrB", 2 ^ 62, ""⟩]).ret.status = .TransactionCreationFailed := by
  decide

end WalletModel
